import Mathlib

/-!
# staticurl: shallow embedding of `main.go`

The Go program is embedded as state-passing functions over a `World` that holds a small
POSIX-like filesystem, the working directory, the standard output and error streams, a record
of the successful system calls, and a fault schedule that can make any system call fail for an
external reason (permissions, full disk, I/O error).

Conventions of the embedding
* Go strings are Lean strings; `len` is the UTF-8 byte size. File contents are valid UTF-8.
* Paths use `/` as separator (`os.PathSeparator` on Unix); there are no symbolic links and no
  permissions: a system call fails when the filesystem state makes it fail, or when the fault
  schedule says so, and then it leaves the filesystem as it was (`os.MkdirAll` keeps the
  directories it made before it met a file).
* `os.Getwd` does not fail.
* `log.Fatalln` prints and ends the process: the outcome `Result.fatal`. Printed lines carry
  their level prefix and no timestamp.
* The three embedded assets (`template.html`, `front.html`, `config.json`) are not part of the
  source file; they are fields of `Env`, together with the two library parsers applied to
  external text (`text/template` parsing and `json.Unmarshal`). A parsed template is literal
  text and the two field actions of `UrlData`.
* `main` is taken after `flag.Parse()`: its arguments are the values of `-b` and `-n`.

The definitions come first: the runtime, the program, then what the statements need. The
theorems follow; the ones that settle a claim say so in their comment.
-/

namespace Staticurl

/-! ## Strings and lexical paths (`strings`, `path/filepath`) -/

/-- Length of a Go string: the number of bytes of its UTF-8 encoding. -/
def goLen (s : String) : Nat := s.utf8ByteSize

/-- Pieces of a character list between the `/` characters, as `strings.Split(s, "/")`. -/
def splitSlash : List Char → List (List Char)
  | [] => [[]]
  | c :: cs =>
    if c = '/' then [] :: splitSlash cs
    else match splitSlash cs with
      | [] => [[c]]
      | x :: xs => (c :: x) :: xs

/-- Elements of a path string: the pieces between separators. -/
def splitPath (s : String) : List String := (splitSlash s.data).map String.mk

/-- Concatenation with `/` between the elements, as `strings.Join(elem, "/")`. -/
def stringsJoin : List String → String
  | [] => ""
  | [a] => a
  | a :: b :: rest => a ++ "/" ++ stringsJoin (b :: rest)

/-- Whether a path string starts at the root. -/
def isRooted (s : String) : Bool := s.data.head? = some '/'

/-- One element of `filepath.Clean`. `st` holds the elements kept so far, the last one first.
Empty elements and `.` are dropped; `..` removes the preceding element unless there is none
(or only `..` elements), in which case it is kept for an unrooted path and dropped for a
rooted one. -/
def cleanStep (rooted : Bool) (st : List String) (c : String) : List String :=
  if c = "" ∨ c = "." then st
  else if c = ".." then
    match st with
    | [] => if rooted then [] else [".."]
    | top :: rest => if top = ".." then ".." :: top :: rest else rest
  else c :: st

/-- Elements of the cleaned form of a path. -/
def cleanElems (path : String) : List String :=
  ((splitPath path).foldl (cleanStep (isRooted path)) []).reverse

/-- The function `filepath.Clean` (Unix): the shortest path name equivalent to `path` by purely
lexical processing. -/
def filepathClean (path : String) : String :=
  if isRooted path then "/" ++ stringsJoin (cleanElems path)
  else if cleanElems path = [] then "."
  else stringsJoin (cleanElems path)

/-- The function `filepath.Join` (Unix): leading empty elements are ignored, the rest is joined
with `/` and cleaned; all elements empty gives the empty string. -/
def filepathJoin (elem : List String) : String :=
  match elem.dropWhile (fun e => decide (e = "")) with
  | [] => ""
  | e :: es => filepathClean (stringsJoin (e :: es))

/-! ## Filesystem -/

/-- Absolute location of a node: the names from the root down. -/
abbrev Path := List String

/-- Nodes of the filesystem: a regular file with its content, or a directory. -/
inductive Node where
  | file (content : String)
  | dir
deriving DecidableEq, Repr

/-- A filesystem: the nodes below the root, keyed by their location. The first entry of a key
is the one that counts. -/
abbrev FS := List (Path × Node)

/-- Entry stored for a key. -/
def FS.get : FS → Path → Option Node
  | [], _ => none
  | (q, n) :: rest, p => if q = p then some n else FS.get rest p

/-- Store a node: in place when the key is present, at the end otherwise. -/
def FS.set : FS → Path → Node → FS
  | [], p, n => [(p, n)]
  | (q, m) :: rest, p, n => if q = p then (q, n) :: rest else (q, m) :: FS.set rest p n

/-- Node at a location (`lstat`); the root is always a directory. -/
def FS.lstat (fs : FS) (p : Path) : Option Node :=
  if p = [] then some Node.dir else fs.get p

/-- Whether a location holds a directory. -/
def FS.isDir (fs : FS) (p : Path) : Bool := fs.lstat p = some Node.dir

/-- Path resolution by the operating system, element by element from `cur`: every element is looked up in
a directory; the last element itself need not exist. -/
def walk (fs : FS) : Path → List String → Option Path
  | cur, [] => some cur
  | cur, c :: cs =>
    if c = "" then walk fs cur cs
    else if !fs.isDir cur then none
    else if c = "." then walk fs cur cs
    else if c = ".." then walk fs cur.dropLast cs
    else walk fs (cur ++ [c]) cs

/-- Resolution of a path string against the working directory; the empty string names
nothing. -/
def namei (fs : FS) (cwd : Path) (name : String) : Option Path :=
  if name = "" then none
  else walk fs (if isRooted name then [] else cwd) (splitPath name)

/-- Lexical resolution: where `walk` arrives when every directory on the way exists. -/
def lexWalk : Path → List String → Path
  | cur, [] => cur
  | cur, c :: cs =>
    if c = "" ∨ c = "." then lexWalk cur cs
    else if c = ".." then lexWalk cur.dropLast cs
    else lexWalk (cur ++ [c]) cs

/-- Location named by a path string seen from `cwd`. -/
def resolve (cwd : Path) (name : String) : Path :=
  lexWalk (if isRooted name then [] else cwd) (splitPath name)

/-- Directory creation along a path (`os.MkdirAll`): missing directories are created on the
way; the result is the directory reached, or `none` when an element is not a directory.
Directories created before a failure stay. -/
def mkdirAllFrom : FS → Path → List String → Option Path × FS
  | fs, cur, [] => (if fs.isDir cur then some cur else none, fs)
  | fs, cur, c :: cs =>
    if c = "" then mkdirAllFrom fs cur cs
    else if !fs.isDir cur then (none, fs)
    else if c = "." then mkdirAllFrom fs cur cs
    else if c = ".." then mkdirAllFrom fs cur.dropLast cs
    else match fs.lstat (cur ++ [c]) with
      | none => mkdirAllFrom (fs.set (cur ++ [c]) Node.dir) (cur ++ [c]) cs
      | some _ => mkdirAllFrom fs (cur ++ [c]) cs

/-- An entry of a directory listing (`fs.FileInfo`): base name and directory flag. -/
structure DirEntry where
  name : String
  isDir : Bool
deriving DecidableEq, Repr

/-- Order of strings by bytes (for UTF-8 the same as by code points). -/
def strLt : List Char → List Char → Bool
  | _, [] => false
  | [], _ :: _ => true
  | a :: as, b :: bs =>
    if a.toNat < b.toNat then true
    else if b.toNat < a.toNat then false
    else strLt as bs

/-- Insertion into a listing sorted by name. -/
def insertByName (e : DirEntry) : List DirEntry → List DirEntry
  | [] => [e]
  | x :: xs =>
    if strLt e.name.data x.name.data then e :: x :: xs else x :: insertByName e xs

/-- Listing sorted by file name, as `ioutil.ReadDir` returns it. -/
def sortByName (l : List DirEntry) : List DirEntry := l.foldr insertByName []

/-- Names stored directly below a directory, in storage order. -/
def FS.children (fs : FS) (d : Path) : List String :=
  fs.filterMap (fun e => if e.1.dropLast = d then e.1.getLast? else none)

/-- Entries of a directory, sorted by name. -/
def FS.list (fs : FS) (d : Path) : List DirEntry :=
  sortByName ((fs.children d).map (fun n => ⟨n, fs.isDir (d ++ [n])⟩))

/-! ## World, outcomes, system calls -/

/-- Successful system calls, with the location they acted on. -/
inductive Event where
  | readFile (p : Path) (data : String)
  | readDir (p : Path)
  | opened (p : Path)
  | read (p : Path) (data : String)
  | mkdirAll (p : Path)
  | create (p : Path)
  | write (p : Path) (data : String)
deriving DecidableEq, Repr

/-- State of the process and of its surroundings. `clock` counts the system calls made;
`faults` lists the calls (by their number) that fail for a reason outside the filesystem
model. -/
structure World where
  fs : FS
  cwd : Path
  faults : List Nat
  clock : Nat
  trace : List Event
  stdout : List String
  stderr : List String
deriving DecidableEq

/-- Whether the `n`-th system call fails for an external reason. -/
def World.fault (w : World) (n : Nat) : Bool := w.faults.contains n

/-- Outcome of a run: normal return with a value, or process exit through `log.Fatalln`. -/
inductive Result (α : Type) where
  | ok (a : α) (w : World)
  | fatal (w : World)
deriving DecidableEq

/-- Programs: functions from the world to an outcome. -/
def Prog (α : Type) : Type := World → Result α

instance : Monad Prog where
  pure a := fun w => Result.ok a w
  bind m f := fun w =>
    match m w with
    | Result.ok a w1 => f a w1
    | Result.fatal w1 => Result.fatal w1

/-- World left by an outcome. -/
def Result.world {α : Type} : Result α → World
  | Result.ok _ w => w
  | Result.fatal w => w

/-- Whether the process ended through `log.Fatalln`. -/
def Result.isFatal {α : Type} : Result α → Bool
  | Result.ok _ _ => false
  | Result.fatal _ => true

/-- A system call begins: the clock advances. -/
def World.tick (w : World) : World := { w with clock := w.clock + 1 }

/-- The call `Warnlog.Println(msg)`. -/
def warnln (msg : String) : Prog Unit := fun w =>
  Result.ok () { w with stdout := w.stdout ++ ["WARN: " ++ msg] }

/-- The call `Errlog.Fatalln(msg)`: the line is printed and the process exits with status 1. -/
def fatalln {α : Type} (msg : String) : Prog α := fun w =>
  Result.fatal { w with stdout := w.stdout ++ ["ERROR: " ++ msg] }

/-- The call `os.Getwd()`, its error ignored as in the source. -/
def osGetwd : Prog String := fun w =>
  Result.ok ("/" ++ stringsJoin w.cwd) w

/-- The call `os.MkdirAll(path, os.ModePerm)`; the result says whether the error is nil. -/
def osMkdirAll (path : String) : Prog Bool := fun w =>
  if w.fault w.clock ∨ path = "" then Result.ok false w.tick
  else
    match mkdirAllFrom w.fs (if isRooted path then [] else w.cwd) (splitPath path) with
    | (some p, fs1) =>
      Result.ok true { w.tick with fs := fs1, trace := w.trace ++ [Event.mkdirAll p] }
    | (none, fs1) => Result.ok false { w.tick with fs := fs1 }

/-- The call `os.Create(name)`: the file is created, or truncated when it exists. The result is
the file handle, `none` for the nil handle returned with an error. -/
def osCreate (name : String) : Prog (Option Path) := fun w =>
  if w.fault w.clock then Result.ok none w.tick
  else
    match namei w.fs w.cwd name with
    | none => Result.ok none w.tick
    | some p =>
      match w.fs.lstat p with
      | some Node.dir => Result.ok none w.tick
      | _ =>
        Result.ok (some p)
          { w.tick with fs := w.fs.set p (Node.file ""), trace := w.trace ++ [Event.create p] }

/-- The call `f.WriteString(data)` on a handle just created; a nil handle gives an error
without a system call. The result says whether the error is nil. -/
def fileWriteString (f : Option Path) (data : String) : Prog Bool := fun w =>
  match f with
  | none => Result.ok false w
  | some p =>
    if w.fault w.clock then Result.ok false w.tick
    else
      match w.fs.get p with
      | some (Node.file c) =>
        Result.ok true
          { w.tick with fs := w.fs.set p (Node.file (c ++ data)),
                        trace := w.trace ++ [Event.write p data] }
      | _ => Result.ok false w.tick

/-- The call `f.Close()`, deferred in the source and its error ignored. -/
def fileClose (_f : Option Path) : Prog Unit := fun w => Result.ok () w

/-- The call `os.ReadFile(name)`: the content, or `none` with an error. -/
def osReadFile (name : String) : Prog (Option String) := fun w =>
  if w.fault w.clock then Result.ok none w.tick
  else
    match namei w.fs w.cwd name with
    | none => Result.ok none w.tick
    | some p =>
      match w.fs.lstat p with
      | some (Node.file c) =>
        Result.ok (some c) { w.tick with trace := w.trace ++ [Event.readFile p c] }
      | _ => Result.ok none w.tick

/-- The call `os.Open(name)`: any existing node can be opened for reading. -/
def osOpen (name : String) : Prog (Option Path) := fun w =>
  if w.fault w.clock then Result.ok none w.tick
  else
    match namei w.fs w.cwd name with
    | none => Result.ok none w.tick
    | some p =>
      match w.fs.lstat p with
      | none => Result.ok none w.tick
      | some _ => Result.ok (some p) { w.tick with trace := w.trace ++ [Event.opened p] }

/-- The call `ioutil.ReadDir(dirname)`: the entries sorted by name, and whether the error is
nil; with an error the list is nil. -/
def ioutilReadDir (dirname : String) : Prog (List DirEntry × Bool) := fun w =>
  if w.fault w.clock then Result.ok ([], false) w.tick
  else
    match namei w.fs w.cwd dirname with
    | none => Result.ok ([], false) w.tick
    | some p =>
      if w.fs.isDir p then
        Result.ok (w.fs.list p, true) { w.tick with trace := w.trace ++ [Event.readDir p] }
      else Result.ok ([], false) w.tick

/-! ## `bufio.Scanner` -/

/-- The constant `bufio.MaxScanTokenSize`. -/
def maxScanTokenSize : Nat := 64 * 1024

/-- The helper `dropCR` of `bufio.ScanLines`: one trailing carriage return is removed. -/
def dropCR (l : List Char) : List Char :=
  if l.getLast? = some '\r' then l.dropLast else l

/-- First token of `bufio.ScanLines` on a complete input: the text before the first newline
(all the text when there is none) without one trailing carriage return. The line must fit the
scanner's buffer: otherwise there is no token and the scanner reports `ErrTooLong`. -/
def scanLines (content : String) : Option String :=
  let line := content.data.takeWhile (fun c => decide (c ≠ '\n'))
  if goLen (String.mk line) < maxScanTokenSize then some (String.mk (dropCR line)) else none

/-- The calls `rdr.Scan()`, `rdr.Err()` and `rdr.Text()` on a fresh scanner over a handle: the
text of the first token and whether the error is nil. Reading a directory is an error. -/
def scannerScan (f : Path) : Prog (String × Bool) := fun w =>
  if w.fault w.clock then Result.ok ("", false) w.tick
  else
    match w.fs.lstat f with
    | some (Node.file c) =>
      match scanLines c with
      | some t => Result.ok (t, true) { w.tick with trace := w.trace ++ [Event.read f c] }
      | none => Result.ok ("", false) { w.tick with trace := w.trace ++ [Event.read f c] }
    | _ => Result.ok ("", false) w.tick

/-! ## `text/template` -/

/-- The record `UrlData` of the source. -/
structure UrlData where
  Url : String
  Code : String
deriving DecidableEq, Repr

/-- The record `Config` of the source. -/
structure Config where
  Output : String
  Urldir : String
deriving DecidableEq, Repr

/-- Nodes of a parsed template over `UrlData`: literal text and the two field actions
`{{.Url}}` and `{{.Code}}`. -/
inductive TmplNode where
  | text (s : String)
  | fieldUrl
  | fieldCode
deriving DecidableEq, Repr

/-- A parsed template: its nodes in order. -/
abbrev Template := List TmplNode

/-- Output of one node: `text/template` prints literal text as it is and a string field with
`fmt.Fprint`, that is, as it is. -/
def TmplNode.exec (d : UrlData) : TmplNode → String
  | TmplNode.text s => s
  | TmplNode.fieldUrl => d.Url
  | TmplNode.fieldCode => d.Code

/-- The call `tmpl.Execute(tempbuf, data)` followed by `tempbuf.String()`. -/
def execute (t : Template) (d : UrlData) : String :=
  t.foldl (fun acc n => acc ++ n.exec d) ""

/-! ## Environment: embedded assets and library parsers -/

/-- What the program takes from outside `main.go`: the three embedded assets, the template
parser applied to the embedded template (`none` for a parse error) and `json.Unmarshal` into a
zero `Config` (the resulting record, and whether the error is nil). -/
structure Env where
  tmplsrc : String
  frontsrc : String
  defaultConf : String
  templateParse : String → Option Template
  jsonUnmarshal : String → Config × Bool

/-! ## The program -/

/-- Source `checkDir`: the result says whether the returned error is nil. -/
def checkDir (targedir : String) : Prog Bool :=
  osMkdirAll (filepathJoin [".", targedir])

/-- Source `initNewSite`. -/
def initNewSite (env : Env) (sitename : String) : Prog Unit := do
  let urlsdir := filepathJoin [sitename, "urls"]
  let _ ← checkDir urlsdir
  let f ← osCreate (filepathJoin [sitename, "config.json"])
  if f.isNone then
    warnln "Failed to create config.json; project will be using default values"
  let errr ← fileWriteString f env.defaultConf
  if !errr then
    warnln "Failed to write to default config.json; project will be using default values"
  fileClose f

/-- Source `readConfig`. -/
def readConfig (env : Env) : Prog (Config × Bool) := do
  let configpath := filepathJoin [".", "config.json"]
  let f ← osReadFile configpath
  match f with
  | none => do
    warnln "config file cannot be found!"
    pure (⟨"", ""⟩, false)
  | some data =>
    let (config, errNil) := env.jsonUnmarshal data
    if !errNil then do
      warnln ("Failed to parse config at ->" ++ configpath)
      pure (config, false)
    else
      pure (config, true)

/-- Source `createFrontpage`. -/
def createFrontpage (env : Env) (outdir : String) : Prog Bool := do
  let ok ← checkDir outdir
  if !ok then do
    warnln "Failed to create front page"
    pure false
  else do
    let fpath := filepathJoin [".", outdir, "index.html"]
    let f ← osCreate fpath
    if f.isNone then do
      warnln ("Failed to create front page at -> " ++ fpath)
      pure false
    else do
      let wrote ← fileWriteString f env.frontsrc
      if !wrote then do
        warnln ("Failed to write to front page at -> " ++ fpath)
        fileClose f
        pure false
      else do
        fileClose f
        pure true

/-- Source `(*UrlData).createFile`. The arguments of `Fatalln` are printed with a space
between them. -/
def createFile (u : UrlData) (outdir : String) (data : String) : Prog Bool := do
  let ok ← checkDir outdir
  if !ok then
    fatalln "Failed to create output directory"
  else do
    let ok2 ← checkDir (filepathJoin [outdir, u.Code])
    if !ok2 then
      fatalln ("Failed to create url directory for ` " ++ u.Code ++ " `")
    else do
      let outputpath := filepathJoin [".", outdir, u.Code, "index.html"]
      let f ← osCreate outputpath
      if f.isNone then
        fatalln ("Failed to create file for code ->  " ++ u.Code)
      else do
        let wrote ← fileWriteString f data
        if !wrote then
          fatalln ("Failed to write to file for code ->  " ++ u.Code)
        else do
          fileClose f
          pure true

/-- Source `processUrl`. -/
def processUrl (fpath : String) (fname : String) : Prog (UrlData × Bool) := do
  let f ← osOpen fpath
  match f with
  | none => fatalln ("Failed to open file " ++ fpath)
  | some h =>
    let (text, errNil) ← scannerScan h
    if !errNil then
      fatalln ("Failed to read file " ++ fpath)
    else do
      fileClose f
      pure (⟨text, fname⟩, true)

/-- The `for _, f := range files` loop of `build`. -/
def buildLoop (tmpl : Template) (OUT : String) (contentDir : String) :
    List DirEntry → Prog Unit
  | [] => pure ()
  | f :: rest => do
    if !f.isDir then do
      let (data, isOk) ← processUrl (contentDir ++ f.name) f.name
      if isOk then do
        let tempbuf := execute tmpl data
        let _ ← createFile data OUT tempbuf
        pure ()
    buildLoop tmpl OUT contentDir rest

/-- First part of source `build` (the lines up to the choice of `OUT` and `CDIR`): the
configuration is read and the two directories are chosen. The result is `(OUT, CDIR)`. -/
def buildDirs (env : Env) : Prog (String × String) := do
  let (conf, isOk) ← readConfig env
  if !isOk then do
    warnln "Failed to read config file using default directories"
    pure ("public", "urls")
  else
    pure (conf.Output, conf.Urldir)

/-- Second part of source `build`, from `os.Getwd()` on. The variable `err` first receives the
error of `ioutil.ReadDir` and is then assigned the error of the template parse before it is
looked at, so both tests of `err` see the parse error and the second one never fires. -/
def buildFrom (env : Env) (OUT : String) (CDIR : String) : Prog Unit := do
  let curdir ← osGetwd
  let contentDir := curdir ++ "/" ++ CDIR ++ "/"
  let (files, _) ← ioutilReadDir contentDir
  match env.templateParse env.tmplsrc with
  | none => fatalln "Failed to read Template file"
  | some tmpl =>
    if files.length < 1 then
      fatalln "URLs directory is empty"
    else do
      buildLoop tmpl OUT contentDir files
      let _ ← createFrontpage env OUT
      pure ()

/-- Source `build`. -/
def build (env : Env) : Prog Unit := do
  let (OUT, CDIR) ← buildDirs env
  buildFrom env OUT CDIR

/-- The help banner of `main`. -/
def helpmsg : String :=
  "staticurl v0.1.0\nsimple and fast flat-file based url shortener without any database\n"

/-- The builtin `println(helpmsg)`: the text goes to standard error. -/
def println (msg : String) : Prog Unit := fun w =>
  Result.ok () { w with stderr := w.stderr ++ [msg ++ "\n"] }

/-- The call `flag.PrintDefaults()` for the two flags declared by `main`. -/
def flagPrintDefaults : Prog Unit := fun w =>
  Result.ok () { w with stderr := w.stderr ++
    ["  -b\tBuild Current Project\n", "  -n string\n    \tCreate New staticurl Site\n"] }

/-- Source `main`, after `flag.Parse()` has given the values of `-b` and `-n`. -/
def main (env : Env) (buildflag : Bool) (sitename : String) : Prog Unit :=
  if buildflag then build env
  else if goLen sitename ≥ 1 then initNewSite env sitename
  else do
    println helpmsg
    flagPrintDefaults

/-! ## Names and locations used in the statements -/

/-- A string without separator. -/
def NoSlash (s : String) : Prop := '/' ∉ s.data

/-- A name that a directory can hold: not empty, not `.` or `..`, no separator. -/
def ValidName (s : String) : Prop := s ≠ "" ∧ s ≠ "." ∧ s ≠ ".." ∧ '/' ∉ s.data

instance (s : String) : Decidable (NoSlash s) := by
  unfold NoSlash; exact inferInstance

instance (s : String) : Decidable (ValidName s) := by
  unfold ValidName; exact inferInstance

/-- Every name stored in the filesystem is a valid name. -/
def FS.wellFormed (fs : FS) : Bool :=
  fs.all (fun e => e.1.all (fun c => decide (ValidName c)))

/-- Elements left by `filepath.Clean` of an unrooted join of `es`. -/
def joinElems (es : List String) : List String :=
  ((es.flatMap splitPath).foldl (cleanStep false) []).reverse

/-- Location of the output directory `<output>` seen from `cwd`. -/
def outPath (cwd : Path) (OUT : String) : Path :=
  resolve cwd (filepathJoin [".", OUT])

/-- Location of `<output>/<name>` seen from `cwd`. -/
def outEntryPath (cwd : Path) (OUT : String) (name : String) : Path :=
  resolve cwd (filepathJoin [".", OUT, name])

/-- Location of the page `<output>/<code>/index.html` seen from `cwd`. -/
def pagePath (cwd : Path) (OUT : String) (code : String) : Path :=
  resolve cwd (filepathJoin [".", OUT, code, "index.html"])

/-- Location of the front page `<output>/index.html` seen from `cwd`. -/
def frontPath (cwd : Path) (OUT : String) : Path :=
  resolve cwd (filepathJoin [".", OUT, "index.html"])

/-- The string `contentDir` that `build` forms from the working directory and `CDIR`. -/
def contentDirOf (cwd : Path) (CDIR : String) : String :=
  "/" ++ stringsJoin cwd ++ "/" ++ CDIR ++ "/"

/-- Location of the input directory `<cwd>/<urldir>/` that `build` enumerates. -/
def inputDir (cwd : Path) (CDIR : String) : Path := resolve cwd (contentDirOf cwd CDIR)

/-- Location of `./config.json` for a process in `cwd`. -/
def cfgPath (cwd : Path) : Path := cwd ++ ["config.json"]

/-- Whether `p` lies strictly below the directory `d`. -/
def Under (d p : Path) : Prop := ∃ rest : Path, rest ≠ [] ∧ p = d ++ rest

/-! ## Observations used in the statements -/

/-- Value returned by a run that did not end through `log.Fatalln`. -/
def Result.value? {α : Type} : Result α → Option α
  | Result.ok a _ => some a
  | Result.fatal _ => none

/-- Data written by the `write` events of a trace, with the file written. -/
def writesOf : List Event → List (Path × String)
  | [] => []
  | Event.write p d :: rest => (p, d) :: writesOf rest
  | _ :: rest => writesOf rest

/-- Files read through a scanner, with the content they held when read. -/
def readsOf : List Event → List (Path × String)
  | [] => []
  | Event.read p d :: rest => (p, d) :: readsOf rest
  | _ :: rest => readsOf rest

/-- Files created or truncated by the `create` events of a trace. -/
def createsOf : List Event → List Path
  | [] => []
  | Event.create p :: rest => p :: createsOf rest
  | _ :: rest => createsOf rest

/-- Text of a file before its first newline character (all of it when there is none): the
first line in the words of the specification. -/
def linePrefix (content : String) : String :=
  String.mk (content.data.takeWhile (fun c => decide (c ≠ '\n')))

/-- First line of a content as the scanner yields it (empty when the scanner fails). -/
def firstLine (content : String) : String := (scanLines content).getD ""

/-- Content of the regular file at a location (empty when there is none). -/
def FS.contentAt (fs : FS) (p : Path) : String :=
  match fs.lstat p with
  | some (Node.file c) => c
  | _ => ""

/-- Names of the entries of a listing that are not directories, in listing order. -/
def regularNames (files : List DirEntry) : List String :=
  (files.filter (fun f => !f.isDir)).map (fun f => f.name)

/-- Pages that a build writes for the regular files `regs` when their contents, as read, are
`cs`: for the file `F` with content `c`, the page `<output>/F/index.html` holding the template
rendered on the record with `Url` the first line of `c` and `Code = F`. -/
def pagesFor (tmpl : Template) (cwd : Path) (OUT : String) (regs : List String)
    (cs : List String) : List (Path × String) :=
  List.zipWith (fun F c => (pagePath cwd OUT F, execute tmpl ⟨firstLine c, F⟩)) regs cs

/-- The three warnings that `createFrontpage` can print for the output directory `OUT`. -/
def frontWarnings (OUT : String) : List String :=
  ["WARN: " ++ "Failed to create front page",
   "WARN: " ++ ("Failed to create front page at -> " ++ filepathJoin [".", OUT, "index.html"]),
   "WARN: " ++ ("Failed to write to front page at -> " ++ filepathJoin [".", OUT, "index.html"])]

/-! ## What a step keeps -/

/-- Every node of the first filesystem is a node of the second. -/
def NodesKept (fs fs1 : FS) : Prop := ∀ p n, fs.lstat p = some n → fs1.lstat p = some n

/-- The regular files of the second filesystem are regular files of the first. -/
def NoNewFile (fs fs1 : FS) : Prop :=
  ∀ p c, fs1.lstat p = some (Node.file c) → fs.lstat p = some (Node.file c)

/-- A regular file other than `x` keeps its content. -/
def FilesKeptExcept (x : Path) (fs fs1 : FS) : Prop :=
  ∀ p c, p ≠ x → fs.lstat p = some (Node.file c) → fs1.lstat p = some (Node.file c)

/-! ## Two runs that differ by the configuration file -/

/-- The world `w` with the file `./config.json` holding `doc` added. -/
def withConfig (w : World) (doc : String) : World :=
  { w with fs := (cfgPath w.cwd, Node.file doc) :: w.fs }

/-- The second world is the first one with the file `./config.json` added (content `doc`),
absent in the first; the processes are in `cwd`, and the traces are `tr1` and `tr2` followed by
the same events. Standard output is left free. -/
structure Sim (cwd : Path) (doc : String) (tr1 tr2 : List Event) (a b : World) : Prop where
  fs : b.fs = (cfgPath cwd, Node.file doc) :: a.fs
  absent : a.fs.get (cfgPath cwd) = none
  cwdA : a.cwd = cwd
  cwdB : b.cwd = cwd
  faults : b.faults = a.faults
  clock : b.clock = a.clock
  trace : ∃ t, a.trace = tr1 ++ t ∧ b.trace = tr2 ++ t

/-- Two outcomes agree: both return the same value, which satisfies `Q`, or both are fatal; and
the worlds they leave are related. -/
def SimR {α : Type} (cwd : Path) (doc : String) (tr1 tr2 : List Event) (Q : α → Prop)
    (ra rb : Result α) : Prop :=
  match ra, rb with
  | Result.ok x a, Result.ok y b => x = y ∧ Q x ∧ Sim cwd doc tr1 tr2 a b
  | Result.fatal a, Result.fatal b => Sim cwd doc tr1 tr2 a b
  | _, _ => False

/-- A program behaves the same in related worlds. -/
def SimP {α : Type} (cwd : Path) (doc : String) (tr1 tr2 : List Event) (Q : α → Prop)
    (m : Prog α) : Prop :=
  ∀ a b, Sim cwd doc tr1 tr2 a b → SimR cwd doc tr1 tr2 Q (m a) (m b)

/-- The location `cfg` is none of the locations that `mkdirAllFrom` visits from `cur`
along `cs`. -/
def Avoids (cfg : Path) (cur : Path) (cs : List String) : Prop :=
  ∀ k, lexWalk cur (cs.take k) ≠ cfg

/-! ## Concrete environments and worlds -/

/-- The default configuration document. -/
def defaultDoc : String := "\x7b\"output\":\"public\",\"urldir\":\"urls\"\x7d"

/-- A redirect template with both fields, parsed. -/
def demoTmpl : Template :=
  [TmplNode.text "<meta http-equiv=\"refresh\" content=\"0; url=", TmplNode.fieldUrl,
    TmplNode.text "\"><title>", TmplNode.fieldCode, TmplNode.text "</title>"]

/-- A concrete environment: the template `demoTmpl`, and a JSON reader that knows the default
configuration document. -/
def demoEnv : Env where
  tmplsrc := "<meta http-equiv=\"refresh\" content=\"0; url=\x7b\x7b.Url\x7d\x7d\"><title>\x7b\x7b.Code\x7d\x7d</title>"
  frontsrc := "<html>front</html>"
  defaultConf := defaultDoc
  templateParse := fun _ => some demoTmpl
  jsonUnmarshal := fun s => if s = defaultDoc then (⟨"public", "urls"⟩, true) else (⟨"", ""⟩, false)

/-- A world with the given filesystem, the process in `/home`, nothing printed, no call made
and no external fault. -/
def worldOf (fs : FS) : World where
  fs := fs
  cwd := ["home"]
  faults := []
  clock := 0
  trace := []
  stdout := []
  stderr := []

/-- The record of scenario S6. -/
def s6Record : UrlData := ⟨"https://example.com/?a=<b>&c=\"d\"", "x"⟩

/-- A project with one input file whose line ends in carriage return and newline. -/
def crWorld : World :=
  worldOf [(["home"], Node.dir), (["home", "urls"], Node.dir),
    (["home", "urls", "a"], Node.file "https://a.test\r\nsecond line\n")]

/-- A project whose configuration file holds the default document. -/
def cfgWorld : World :=
  worldOf [(["home"], Node.dir), (["home", "config.json"], Node.file defaultDoc),
    (["home", "urls"], Node.dir), (["home", "urls", "a"], Node.file "https://a.test\n")]

/-- A project whose input directory is empty. -/
def emptyWorld : World :=
  worldOf [(["home"], Node.dir), (["home", "urls"], Node.dir)]

/-- The project of scenario S2: two input files and a subdirectory. -/
def s2World : World :=
  worldOf [(["home"], Node.dir), (["home", "urls"], Node.dir),
    (["home", "urls", "b"], Node.file "https://b.test\n"),
    (["home", "urls", "a"], Node.file "https://a.test\n"),
    (["home", "urls", "c"], Node.dir)]

/-- A project with an input file named `index.html`. -/
def indexWorld : World :=
  worldOf [(["home"], Node.dir), (["home", "urls"], Node.dir),
    (["home", "urls", "index.html"], Node.file "https://i.test\n")]

/-- A project with three input files in which `public/b` is a regular file, so that the
directory of the second page cannot be created. -/
def blockedWorld : World :=
  worldOf [(["home"], Node.dir), (["home", "urls"], Node.dir),
    (["home", "urls", "a"], Node.file "https://a.test\n"),
    (["home", "urls", "b"], Node.file "https://b.test\n"),
    (["home", "urls", "c"], Node.file "https://c.test\n"),
    (["home", "public"], Node.dir), (["home", "public", "b"], Node.file "in the way")]

/-- The string `contentDir` of a process in `/home` with the default input directory. -/
def homeUrls : String := contentDirOf ["home"] "urls"

/-- World of `blockedWorld` after the configuration was looked for. -/
def blocked0 : World := (buildDirs demoEnv blockedWorld).world

/-- World of `blockedWorld` after the input directory was listed. -/
def blocked1 : World := (ioutilReadDir homeUrls blocked0).world

/-- World of `blockedWorld` after the page of `a` was written. -/
def blocked2 : World :=
  (buildLoop demoTmpl "public" homeUrls [⟨"a", false⟩] blocked1).world

/-- World of `blockedWorld` after the input file `b` was read. -/
def blocked3 : World := (processUrl (homeUrls ++ "b") "b" blocked2).world

/-- World of `blockedWorld` when the directory of the page of `b` could not be created. -/
def blocked4 : World :=
  (createFile ⟨"https://b.test", "b"⟩ "public"
    (execute demoTmpl ⟨"https://b.test", "b"⟩) blocked3).world

/-- A site directory outside the working directory, already present. -/
def absWorld : World :=
  worldOf [(["home"], Node.dir), (["srv"], Node.dir), (["srv", "site"], Node.dir)]

/-! # Theorems -/

/-! ## Path strings -/

theorem splitSlash_ne_nil (l : List Char) : splitSlash l ≠ [] := by
  cases l with
  | nil => simp [splitSlash]
  | cons c cs =>
    simp only [splitSlash]
    split
    · simp
    · split <;> simp

theorem splitSlash_append (x y : List Char) :
    splitSlash (x ++ '/' :: y) = splitSlash x ++ splitSlash y := by
  induction x with
  | nil => simp [splitSlash]
  | cons c cs ih =>
    simp only [List.cons_append, splitSlash, List.append_eq]
    split
    · simp [ih]
    · rw [ih]
      cases h : splitSlash cs with
      | nil => exact absurd h (splitSlash_ne_nil cs)
      | cons a as => simp

theorem splitSlash_noSlash (x : List Char) (h : '/' ∉ x) : splitSlash x = [x] := by
  induction x with
  | nil => simp [splitSlash]
  | cons c cs ih =>
    simp only [List.mem_cons, not_or] at h
    simp only [splitSlash]
    rw [if_neg (fun e => h.1 e.symm), ih h.2]

theorem splitSlash_mem_noSlash (l : List Char) : ∀ x ∈ splitSlash l, '/' ∉ x := by
  induction l with
  | nil => simp [splitSlash]
  | cons c cs ih =>
    intro x hx
    simp only [splitSlash] at hx
    split at hx
    · simp only [List.mem_cons] at hx
      rcases hx with rfl | hx
      · simp
      · exact ih x hx
    · cases h : splitSlash cs with
      | nil => exact absurd h (splitSlash_ne_nil cs)
      | cons a as =>
        rw [h] at hx ih
        simp only [List.mem_cons] at hx
        rcases hx with rfl | hx
        · intro hm
          simp only [List.mem_cons] at hm
          rcases hm with hm | hm
          · rename_i hne; exact hne hm.symm
          · exact ih a (by simp) hm
        · exact ih x (by simp [hx])

theorem splitPath_noSlash (x : String) (h : NoSlash x) : splitPath x = [x] := by
  unfold splitPath
  rw [splitSlash_noSlash _ h]
  rfl

theorem splitPath_mem_noSlash (s : String) : ∀ x ∈ splitPath s, NoSlash x := by
  intro x hx
  unfold splitPath at hx
  simp only [List.mem_map] at hx
  obtain ⟨l, hl, rfl⟩ := hx
  exact splitSlash_mem_noSlash _ l hl

theorem splitPath_append (a b : String) :
    splitPath (a ++ "/" ++ b) = splitPath a ++ splitPath b := by
  unfold splitPath
  have : (a ++ "/" ++ b).data = a.data ++ '/' :: b.data := by
    simp [String.data_append]
  rw [this, splitSlash_append, List.map_append]

theorem splitPath_stringsJoin (e : String) (es : List String) :
    splitPath (stringsJoin (e :: es)) = (e :: es).flatMap splitPath := by
  induction es generalizing e with
  | nil => simp [stringsJoin]
  | cons b rest ih =>
    rw [stringsJoin, splitPath_append, ih b]
    simp

theorem bind_splitPath_noSlash (l : List String) (h : ∀ x ∈ l, NoSlash x) :
    l.flatMap splitPath = l := by
  induction l with
  | nil => rfl
  | cons a as ih =>
    rw [List.flatMap_cons, splitPath_noSlash a (h a (by simp)), ih (fun x hx => h x (by simp [hx]))]
    rfl

theorem ValidName.noSlash {x : String} (h : ValidName x) : NoSlash x := h.2.2.2

theorem cleanStep_valid (r : Bool) (st : List String) (x : String) (h : ValidName x) :
    cleanStep r st x = x :: st := by
  unfold cleanStep
  rw [if_neg (by rintro (e | e); exact h.1 e; exact h.2.1 e), if_neg h.2.2.1]

theorem cleanStep_dot (r : Bool) (st : List String) : cleanStep r st "." = st := by
  simp [cleanStep]

theorem cleanFold_elems (r : Bool) (cs : List String) (hcs : ∀ c ∈ cs, NoSlash c) :
    ∀ st : List String, (∀ c ∈ st, NoSlash c ∧ c ≠ "") →
      ∀ c ∈ cs.foldl (cleanStep r) st, NoSlash c ∧ c ≠ "" := by
  induction cs with
  | nil => intro st hst; simpa using hst
  | cons a as ih =>
    intro st hst
    rw [List.foldl_cons]
    apply ih (fun c hc => hcs c (by simp [hc]))
    intro c hc
    unfold cleanStep at hc
    split at hc
    · exact hst c hc
    · split at hc
      · split at hc
        · split at hc
          · simp at hc
          · simp only [List.mem_singleton] at hc
            subst hc
            exact ⟨by decide, by decide⟩
        · split at hc
          · simp only [List.mem_cons] at hc
            rcases hc with rfl | hc
            · exact ⟨by decide, by decide⟩
            · exact hst c (by simpa using hc)
          · exact hst c (by simp [hc])
      · simp only [List.mem_cons] at hc
        rcases hc with rfl | hc
        · rename_i h1 _
          exact ⟨hcs c (by simp), fun e => h1 (Or.inl e)⟩
        · exact hst c hc

theorem joinElems_elems (es : List String) : ∀ c ∈ joinElems es, NoSlash c ∧ c ≠ "" := by
  intro c hc
  unfold joinElems at hc
  rw [List.mem_reverse] at hc
  refine cleanFold_elems false _ ?_ [] (by simp) c hc
  intro x hx
  simp only [List.mem_flatMap] at hx
  obtain ⟨e, _, hx⟩ := hx
  exact splitPath_mem_noSlash e x hx

theorem joinElems_append_valid (es : List String) (x : String) (h : ValidName x) :
    joinElems (es ++ [x]) = joinElems es ++ [x] := by
  unfold joinElems
  rw [List.flatMap_append, List.foldl_append]
  simp only [List.flatMap_cons, List.flatMap_nil, List.append_nil]
  rw [splitPath_noSlash x h.noSlash]
  simp [cleanStep_valid _ _ x h]

theorem isRooted_stringsJoin (a : String) (rest : List String) (ha : NoSlash a) (hne : a ≠ "") :
    isRooted (stringsJoin (a :: rest)) = false := by
  have hd : ∃ c cs, a.data = c :: cs ∧ c ≠ '/' := by
    cases hdat : a.data with
    | nil =>
      exfalso; apply hne
      cases a; simp_all
    | cons c cs =>
      refine ⟨c, cs, rfl, ?_⟩
      intro e
      apply ha
      rw [hdat, e]; simp
  obtain ⟨c, cs, hdat, hc⟩ := hd
  cases rest with
  | nil => simp [stringsJoin, isRooted, hdat, hc]
  | cons b r => simp [stringsJoin, isRooted, String.data_append, hdat, hc]

theorem filepathJoin_dot (es : List String) :
    filepathJoin ("." :: es) =
      if joinElems es = [] then "." else stringsJoin (joinElems es) := by
  have hr : isRooted (stringsJoin ("." :: es)) = false :=
    isRooted_stringsJoin "." es (by decide) (by decide)
  have hce : cleanElems (stringsJoin ("." :: es)) = joinElems es := by
    unfold cleanElems joinElems
    rw [hr, splitPath_stringsJoin, List.flatMap_cons]
    have : splitPath "." = ["."] := by decide
    rw [this]
    simp [cleanStep_dot]
  have hdw : List.dropWhile (fun e => decide (e = "")) ("." :: es) = "." :: es := by
    simp [List.dropWhile]
  unfold filepathJoin
  rw [hdw]
  simp only [filepathClean, hr, hce]
  simp

theorem lexWalk_append_valid (x : String) (h : ValidName x) (cs : List String) :
    ∀ cur : Path, lexWalk cur (cs ++ [x]) = lexWalk cur cs ++ [x] := by
  induction cs with
  | nil =>
    intro cur
    simp only [List.nil_append, lexWalk]
    rw [if_neg (by rintro (e | e); exact h.1 e; exact h.2.1 e), if_neg h.2.2.1]
  | cons a as ih =>
    intro cur
    simp only [List.cons_append, lexWalk]
    split
    · exact ih _
    · split
      · exact ih _
      · exact ih _

theorem resolve_filepathJoin_dot (cwd : Path) (es : List String) :
    resolve cwd (filepathJoin ("." :: es)) = lexWalk cwd (joinElems es) := by
  rw [filepathJoin_dot]
  split
  · rename_i h
    rw [h]
    have : resolve cwd "." = cwd := by
      simp [resolve, isRooted, splitPath, splitSlash, lexWalk]
    rw [this]; rfl
  · rename_i h
    cases hl : joinElems es with
    | nil => exact absurd hl h
    | cons a rest =>
      have hel := joinElems_elems es
      rw [hl] at hel
      have ha := hel a (by simp)
      unfold resolve
      rw [isRooted_stringsJoin a rest ha.1 ha.2, splitPath_stringsJoin,
        bind_splitPath_noSlash _ (fun x hx => (hel x hx).1)]
      simp

theorem resolve_join_append (cwd : Path) (es : List String) (x : String) (h : ValidName x) :
    resolve cwd (filepathJoin ("." :: (es ++ [x]))) =
      resolve cwd (filepathJoin ("." :: es)) ++ [x] := by
  rw [resolve_filepathJoin_dot, resolve_filepathJoin_dot, joinElems_append_valid es x h,
    lexWalk_append_valid x h]

/-! ## Programs: unfolding -/

@[simp] theorem bind_apply {α β : Type} (m : Prog α) (f : α → Prog β) (w : World) :
    (m >>= f) w =
      match m w with
      | Result.ok a w1 => f a w1
      | Result.fatal w1 => Result.fatal w1 := rfl

@[simp] theorem pure_apply {α : Type} (a : α) (w : World) :
    (pure a : Prog α) w = Result.ok a w := rfl

/-! ## Template execution -/

theorem foldl_exec_acc (d : UrlData) (t : Template) :
    ∀ acc : String, t.foldl (fun acc n => acc ++ n.exec d) acc = acc ++ execute t d := by
  induction t with
  | nil => intro acc; simp [execute]
  | cons n rest ih =>
    intro acc
    simp only [execute, List.foldl_cons]
    rw [ih (acc ++ n.exec d), ih ("" ++ n.exec d)]
    simp [String.append_assoc]

theorem execute_append (a b : Template) (d : UrlData) :
    execute (a ++ b) d = execute a d ++ execute b d := by
  unfold execute
  rw [List.foldl_append, foldl_exec_acc d b]
  rfl

theorem execute_cons (n : TmplNode) (t : Template) (d : UrlData) :
    execute (n :: t) d = n.exec d ++ execute t d := by
  have := execute_append [n] t d
  simpa [execute] using this

/-- Claim C3, as stated, fails: on the record of scenario S6 a template made of the `Url`
placeholder between two literals renders the url unchanged, with its `<`, `>`, `&` and `"`
unescaped at the placeholder position. -/
theorem execute_escaping_counterexample :
    execute [TmplNode.text "<a href=\"", TmplNode.fieldUrl, TmplNode.text "\">"] s6Record
        = "<a href=\"" ++ "https://example.com/?a=<b>&c=\"d\"" ++ "\">"
      ∧ '<' ∈ s6Record.Url.data ∧ '>' ∈ s6Record.Url.data
      ∧ '&' ∈ s6Record.Url.data ∧ '"' ∈ s6Record.Url.data := by
  decide

/-- Claim C3, amended: the renderer is a plain text template. At a placeholder the value of
the field is written exactly as it is, whatever characters it holds: the page is the rendering
of what precedes, then the raw value, then the rendering of what follows. -/
theorem execute_verbatim (before after : Template) (d : UrlData) :
    execute (before ++ TmplNode.fieldUrl :: after) d
        = execute before d ++ d.Url ++ execute after d
      ∧ execute (before ++ TmplNode.fieldCode :: after) d
        = execute before d ++ d.Code ++ execute after d := by
  constructor <;>
    rw [execute_append, execute_cons] <;> simp [TmplNode.exec, String.append_assoc]

/-! ## `processUrl` -/

theorem dropCR_spec (l : List Char) :
    (l.getLast? = some '\r' → l = dropCR l ++ ['\r']) ∧
      (l.getLast? ≠ some '\r' → dropCR l = l) := by
  constructor
  · intro h
    unfold dropCR
    rw [if_pos h]
    rw [List.getLast?_eq_some_iff] at h
    obtain ⟨ys, rfl⟩ := h
    simp
  · intro h
    unfold dropCR
    rw [if_neg h]

/-- Claim C6, as stated, fails: for the readable file `/home/urls/a` holding
`https://a.test\r\nsecond line\n`, `processUrl` returns the url `https://a.test`, while the
prefix of the content before its first newline is `https://a.test\r`: the carriage return, a
character of the first line, is removed. -/
theorem processUrl_prefix_counterexample :
    (processUrl "/home/urls/a" "a" crWorld).value? = some (⟨"https://a.test", "a"⟩, true)
      ∧ crWorld.fs.lstat ["home", "urls", "a"]
          = some (Node.file "https://a.test\r\nsecond line\n")
      ∧ linePrefix "https://a.test\r\nsecond line\n" = "https://a.test\r"
      ∧ linePrefix "https://a.test\r\nsecond line\n" ≠ "https://a.test" := by
  decide

/-- Claim C6, amended: for every readable input file with name `N` and content `C` whose first
line fits the scanner buffer (fewer than 64 KiB before the first newline), `processUrl` returns
with success the record with `Code = N` and `Url = U`, where `U` is the prefix of `C` before
the first newline without one trailing carriage return: when the prefix ends in a carriage
return it is `U` followed by that character, otherwise `U` is the prefix itself. Nothing else
is removed or altered, and the result depends on the first line only. -/
theorem processUrl_first_line (fpath N C : String) (w : World) (p : Path)
    (hres : namei w.fs w.cwd fpath = some p)
    (hfile : w.fs.lstat p = some (Node.file C))
    (hopen : w.fault w.clock = false) (hread : w.fault (w.clock + 1) = false)
    (hfit : goLen (linePrefix C) < maxScanTokenSize) :
    ∃ U : String,
      (processUrl fpath N w).value? = some (⟨U, N⟩, true)
      ∧ ((linePrefix C).data.getLast? = some '\r' → (linePrefix C).data = U.data ++ ['\r'])
      ∧ ((linePrefix C).data.getLast? ≠ some '\r' → U = linePrefix C) := by
  refine ⟨String.mk (dropCR (linePrefix C).data), ?_, ?_, ?_⟩
  · have hscan : scanLines C = some (String.mk (dropCR (linePrefix C).data)) := by
      unfold scanLines
      simp only [linePrefix] at hfit ⊢
      rw [if_pos hfit]
    have hopen1 : w.clock ∉ w.faults := by simpa [World.fault] using hopen
    have hread1 : w.clock + 1 ∉ w.faults := by simpa [World.fault] using hread
    simp [processUrl, osOpen, scannerScan, fileClose, World.tick, World.fault, hres, hfile,
      hopen1, hread1, hscan, Result.value?]
  · intro h
    exact (dropCR_spec _).1 h
  · intro h
    have := (dropCR_spec _).2 h
    rw [this]

/-- Witness for claim C6 as amended: the file of `crWorld`. -/
theorem processUrl_first_line_witness :
    ∃ U : String,
      (processUrl "/home/urls/a" "a" crWorld).value? = some (⟨U, "a"⟩, true)
      ∧ ((linePrefix "https://a.test\r\nsecond line\n").data.getLast? = some '\r' →
          (linePrefix "https://a.test\r\nsecond line\n").data = U.data ++ ['\r'])
      ∧ ((linePrefix "https://a.test\r\nsecond line\n").data.getLast? ≠ some '\r' →
          U = linePrefix "https://a.test\r\nsecond line\n") :=
  processUrl_first_line "/home/urls/a" "a" "https://a.test\r\nsecond line\n" crWorld
    ["home", "urls", "a"] (by decide) (by decide) (by decide) (by decide) (by decide)

/-! ## `main` -/

theorem utf8ByteSize_go_pos (c : Char) (cs : List Char) :
    1 ≤ String.utf8ByteSize.go (c :: cs) := by
  simp only [String.utf8ByteSize.go]
  have := Char.utf8Size_pos c
  omega

theorem goLen_ge_one_iff (s : String) : goLen s ≥ 1 ↔ s ≠ "" := by
  cases s with
  | mk l =>
    cases l with
    | nil => simp [goLen, String.utf8ByteSize, String.utf8ByteSize.go]
    | cons c cs =>
      have h := utf8ByteSize_go_pos c cs
      constructor
      · intro _ e
        have := congrArg String.data e
        simp at this
      · intro _
        exact h

/-- Claim C7: `main` runs exactly one action. With `-b` set it is `build`, whatever `-n` is;
otherwise with `-n` non-empty it is `initNewSite` with that name; otherwise the help banner and
the flag list are printed on standard error and nothing else changes (no system call is made,
the filesystem is untouched). -/
theorem main_dispatch (env : Env) (buildflag : Bool) (sitename : String) (w : World) :
    main env buildflag sitename w =
      if buildflag = true then build env w
      else if sitename = "" then
        Result.ok () { w with stderr := w.stderr ++
          [helpmsg ++ "\n", "  -b\tBuild Current Project\n",
            "  -n string\n    \tCreate New staticurl Site\n"] }
      else initNewSite env sitename w := by
  unfold main
  cases buildflag with
  | true => simp
  | false =>
    by_cases hs : sitename = ""
    · subst hs
      have : ¬ 1 ≤ goLen "" := by decide
      simp [this, println, flagPrintDefaults]
    · have : 1 ≤ goLen sitename := (goLen_ge_one_iff sitename).2 hs
      simp [this, hs]

/-! ## Filesystem facts -/

theorem FS.get_set_same (fs : FS) (p : Path) (n : Node) : (fs.set p n).get p = some n := by
  induction fs with
  | nil => simp [FS.set, FS.get]
  | cons e rest ih =>
    obtain ⟨q, m⟩ := e
    by_cases h : q = p
    · simp [FS.set, FS.get, h]
    · simp [FS.set, FS.get, h, ih]

theorem FS.get_set_ne (fs : FS) (p q : Path) (n : Node) (h : q ≠ p) :
    (fs.set p n).get q = fs.get q := by
  induction fs with
  | nil =>
    simp only [FS.set, FS.get]
    rw [if_neg (fun e => h e.symm)]
  | cons e rest ih =>
    obtain ⟨k, m⟩ := e
    by_cases hk : k = p
    · subst hk
      simp only [FS.set, if_true, FS.get]
      rw [if_neg (fun e => h e.symm), if_neg (fun e => h e.symm)]
    · simp only [FS.set, if_neg hk, FS.get, ih]

theorem FS.lstat_set_same (fs : FS) (p : Path) (n : Node) (hp : p ≠ []) :
    (fs.set p n).lstat p = some n := by
  simp [FS.lstat, hp, FS.get_set_same]

theorem FS.lstat_set_ne (fs : FS) (p q : Path) (n : Node) (h : q ≠ p) :
    (fs.set p n).lstat q = fs.lstat q := by
  simp [FS.lstat, FS.get_set_ne fs p q n h]

theorem nodesKept_refl (fs : FS) : NodesKept fs fs := fun _ _ h => h

theorem nodesKept_trans {a b c : FS} (h1 : NodesKept a b) (h2 : NodesKept b c) :
    NodesKept a c := fun p n h => h2 p n (h1 p n h)

theorem noNewFile_refl (fs : FS) : NoNewFile fs fs := fun _ _ h => h

theorem noNewFile_trans {a b c : FS} (h1 : NoNewFile a b) (h2 : NoNewFile b c) :
    NoNewFile a c := fun p n h => h1 p n (h2 p n h)

theorem nodesKept_set_dir (fs : FS) (p : Path) (h : fs.lstat p = none) :
    NodesKept fs (fs.set p Node.dir) := by
  intro q n hq
  by_cases e : q = p
  · subst e; rw [h] at hq; cases hq
  · rw [FS.lstat_set_ne fs p q _ e]; exact hq

theorem noNewFile_set_dir (fs : FS) (p : Path) :
    NoNewFile fs (fs.set p Node.dir) := by
  intro q c hq
  by_cases e : q = p
  · subst e
    by_cases hq0 : q = []
    · subst hq0; simp [FS.lstat] at hq
    · rw [FS.lstat_set_same fs q _ hq0] at hq; cases hq
  · rw [FS.lstat_set_ne fs p q _ e] at hq; exact hq

theorem mkdirAllFrom_spec (cs : List String) :
    ∀ (fs : FS) (cur : Path),
      NodesKept fs (mkdirAllFrom fs cur cs).2 ∧ NoNewFile fs (mkdirAllFrom fs cur cs).2 ∧
      ∀ p, (mkdirAllFrom fs cur cs).1 = some p →
        p = lexWalk cur cs ∧ (mkdirAllFrom fs cur cs).2.isDir p = true := by
  induction cs with
  | nil =>
    intro fs cur
    refine ⟨nodesKept_refl _, noNewFile_refl _, ?_⟩
    intro p hp
    simp only [mkdirAllFrom] at hp ⊢
    split at hp
    · cases hp
      rename_i h
      exact ⟨by simp [lexWalk], h⟩
    · cases hp
  | cons c rest ih =>
    intro fs cur
    simp only [mkdirAllFrom, lexWalk]
    by_cases h1 : c = ""
    · simp only [h1, if_true, true_or]
      exact ih fs cur
    · simp only [h1, if_false, false_or]
      by_cases h2 : fs.isDir cur = true
      · simp only [h2, Bool.not_true, Bool.false_eq_true, if_false]
        by_cases h3 : c = "."
        · simp only [h3, if_true]
          exact ih fs cur
        · simp only [h3, if_false]
          by_cases h4 : c = ".."
          · simp only [h4, if_true]
            exact ih fs _
          · simp only [h4, if_false]
            cases hl : fs.lstat (cur ++ [c]) with
            | none =>
              simp only []
              obtain ⟨k1, k2, k3⟩ := ih (fs.set (cur ++ [c]) Node.dir) (cur ++ [c])
              exact ⟨nodesKept_trans (nodesKept_set_dir fs _ hl) k1, noNewFile_trans (noNewFile_set_dir fs _) k2, k3⟩
            | some n =>
              simp only []
              exact ih fs _
      · simp only [h2, Bool.not_false, if_true]
        exact ⟨nodesKept_refl _, noNewFile_refl _, fun p hp => by cases hp⟩

theorem walk_eq_lexWalk (fs : FS) (cs : List String) :
    ∀ (cur p : Path), walk fs cur cs = some p → p = lexWalk cur cs := by
  induction cs with
  | nil => intro cur p h; simp only [walk] at h; cases h; rfl
  | cons c rest ih =>
    intro cur p h
    simp only [walk] at h
    simp only [lexWalk]
    by_cases h1 : c = ""
    · simp only [h1, if_true, true_or] at h ⊢
      exact ih _ _ h
    · simp only [h1, if_false, false_or] at h ⊢
      split at h
      · cases h
      · by_cases h3 : c = "."
        · simp only [h3, if_true] at h ⊢
          exact ih _ _ h
        · simp only [h3, if_false] at h ⊢
          by_cases h4 : c = ".."
          · simp only [h4, if_true] at h ⊢
            exact ih _ _ h
          · simp only [h4, if_false] at h ⊢
            exact ih _ _ h

theorem namei_eq_resolve (fs : FS) (cwd : Path) (name : String) (p : Path)
    (h : namei fs cwd name = some p) : p = resolve cwd name := by
  unfold namei at h
  split at h
  · cases h
  · exact walk_eq_lexWalk fs _ _ _ h

/-! ## Traces -/

theorem writesOf_append (a b : List Event) : writesOf (a ++ b) = writesOf a ++ writesOf b := by
  induction a with
  | nil => rfl
  | cons e rest ih => cases e <;> simp [writesOf, ih]

theorem readsOf_append (a b : List Event) : readsOf (a ++ b) = readsOf a ++ readsOf b := by
  induction a with
  | nil => rfl
  | cons e rest ih => cases e <;> simp [readsOf, ih]

theorem createsOf_append (a b : List Event) :
    createsOf (a ++ b) = createsOf a ++ createsOf b := by
  induction a with
  | nil => rfl
  | cons e rest ih => cases e <;> simp [createsOf, ih]

/-! ## System calls: what each one does -/

theorem filesKeptExcept_refl (x : Path) (fs : FS) : FilesKeptExcept x fs fs :=
  fun _ _ _ h => h

theorem filesKeptExcept_trans {x : Path} {a b c : FS} (h1 : FilesKeptExcept x a b)
    (h2 : FilesKeptExcept x b c) : FilesKeptExcept x a c :=
  fun p n hp h => h2 p n hp (h1 p n hp h)

theorem NodesKept.filesKeptExcept {fs fs1 : FS} (h : NodesKept fs fs1) (x : Path) :
    FilesKeptExcept x fs fs1 := fun p _ _ hp => h p _ hp

theorem filesKeptExcept_set (fs : FS) (x : Path) (n : Node) :
    FilesKeptExcept x fs (fs.set x n) := by
  intro p c hp h
  rw [FS.lstat_set_ne fs x p n hp]; exact h

theorem osMkdirAll_spec (path : String) (w : World) :
    ∃ b w1, osMkdirAll path w = Result.ok b w1 ∧ w1.cwd = w.cwd ∧ w1.stdout = w.stdout
      ∧ NodesKept w.fs w1.fs ∧ NoNewFile w.fs w1.fs
      ∧ writesOf w1.trace = writesOf w.trace ∧ readsOf w1.trace = readsOf w.trace
      ∧ createsOf w1.trace = createsOf w.trace := by
  unfold osMkdirAll
  split
  · exact ⟨_, _, rfl, rfl, rfl, nodesKept_refl _, noNewFile_refl _, rfl, rfl, rfl⟩
  · obtain ⟨k1, k2, _⟩ :=
      mkdirAllFrom_spec (splitPath path) w.fs (if isRooted path = true then [] else w.cwd)
    split
    · rename_i p fs1 heq
      rw [heq] at k1 k2
      exact ⟨_, _, rfl, rfl, rfl, k1, k2, by simp [writesOf_append, writesOf],
        by simp [readsOf_append, readsOf], by simp [createsOf_append, createsOf]⟩
    · rename_i fs1 heq
      rw [heq] at k1 k2
      exact ⟨_, _, rfl, rfl, rfl, k1, k2, rfl, rfl, rfl⟩

theorem osCreate_spec (name : String) (w : World) :
    ∃ r w1, osCreate name w = Result.ok r w1 ∧ w1.cwd = w.cwd ∧ w1.stdout = w.stdout
      ∧ writesOf w1.trace = writesOf w.trace ∧ readsOf w1.trace = readsOf w.trace
      ∧ ((r = none ∧ w1.fs = w.fs ∧ createsOf w1.trace = createsOf w.trace)
        ∨ (r = some (resolve w.cwd name) ∧ resolve w.cwd name ≠ []
            ∧ w1.fs = w.fs.set (resolve w.cwd name) (Node.file "")
            ∧ createsOf w1.trace = createsOf w.trace ++ [resolve w.cwd name])) := by
  unfold osCreate
  split
  · exact ⟨_, _, rfl, rfl, rfl, rfl, rfl, Or.inl ⟨rfl, rfl, rfl⟩⟩
  · split
    · exact ⟨_, _, rfl, rfl, rfl, rfl, rfl, Or.inl ⟨rfl, rfl, rfl⟩⟩
    · rename_i p hp
      have hpe := namei_eq_resolve _ _ _ _ hp
      subst hpe
      split
      · exact ⟨_, _, rfl, rfl, rfl, rfl, rfl, Or.inl ⟨rfl, rfl, rfl⟩⟩
      · rename_i hnd
        refine ⟨_, _, rfl, rfl, rfl, by simp [writesOf_append, writesOf],
          by simp [readsOf_append, readsOf], Or.inr ⟨rfl, ?_, rfl, ?_⟩⟩
        · intro e
          apply hnd
          simp [FS.lstat, e]
        · simp [createsOf_append, createsOf]

theorem fileWriteString_spec (f : Option Path) (data : String) (w : World) :
    ∃ b w1, fileWriteString f data w = Result.ok b w1 ∧ w1.cwd = w.cwd ∧ w1.stdout = w.stdout
      ∧ readsOf w1.trace = readsOf w.trace ∧ createsOf w1.trace = createsOf w.trace
      ∧ ((b = false ∧ w1.fs = w.fs ∧ writesOf w1.trace = writesOf w.trace)
        ∨ (∃ p c, b = true ∧ f = some p ∧ w.fs.get p = some (Node.file c)
            ∧ w1.fs = w.fs.set p (Node.file (c ++ data))
            ∧ writesOf w1.trace = writesOf w.trace ++ [(p, data)])) := by
  unfold fileWriteString
  split
  · exact ⟨_, _, rfl, rfl, rfl, rfl, rfl, Or.inl ⟨rfl, rfl, rfl⟩⟩
  · split
    · exact ⟨_, _, rfl, rfl, rfl, rfl, rfl, Or.inl ⟨rfl, rfl, rfl⟩⟩
    · split
      · rename_i p _ _ c hc
        exact ⟨_, _, rfl, rfl, rfl, by simp [readsOf_append, readsOf],
          by simp [createsOf_append, createsOf],
          Or.inr ⟨p, c, rfl, rfl, hc, rfl, by simp [writesOf_append, writesOf]⟩⟩
      · exact ⟨_, _, rfl, rfl, rfl, rfl, rfl, Or.inl ⟨rfl, rfl, rfl⟩⟩

theorem osReadFile_spec (name : String) (w : World) :
    ∃ r w1, osReadFile name w = Result.ok r w1 ∧ w1.cwd = w.cwd ∧ w1.stdout = w.stdout
      ∧ w1.fs = w.fs ∧ w1.faults = w.faults ∧ w1.clock = w.clock + 1
      ∧ writesOf w1.trace = writesOf w.trace ∧ readsOf w1.trace = readsOf w.trace
      ∧ createsOf w1.trace = createsOf w.trace := by
  unfold osReadFile
  split
  · exact ⟨_, _, rfl, rfl, rfl, rfl, rfl, rfl, rfl, rfl, rfl⟩
  · split
    · exact ⟨_, _, rfl, rfl, rfl, rfl, rfl, rfl, rfl, rfl, rfl⟩
    · split
      · exact ⟨_, _, rfl, rfl, rfl, rfl, rfl, rfl, by simp [writesOf_append, writesOf],
          by simp [readsOf_append, readsOf], by simp [createsOf_append, createsOf]⟩
      · exact ⟨_, _, rfl, rfl, rfl, rfl, rfl, rfl, rfl, rfl, rfl⟩

theorem osOpen_spec (name : String) (w : World) :
    ∃ r w1, osOpen name w = Result.ok r w1 ∧ w1.cwd = w.cwd ∧ w1.stdout = w.stdout
      ∧ w1.fs = w.fs
      ∧ writesOf w1.trace = writesOf w.trace ∧ readsOf w1.trace = readsOf w.trace
      ∧ createsOf w1.trace = createsOf w.trace
      ∧ (r = none ∨ r = some (resolve w.cwd name)) := by
  unfold osOpen
  split
  · exact ⟨_, _, rfl, rfl, rfl, rfl, rfl, rfl, rfl, Or.inl rfl⟩
  · split
    · exact ⟨_, _, rfl, rfl, rfl, rfl, rfl, rfl, rfl, Or.inl rfl⟩
    · rename_i p hp
      have hpe := namei_eq_resolve _ _ _ _ hp
      subst hpe
      split
      · exact ⟨_, _, rfl, rfl, rfl, rfl, rfl, rfl, rfl, Or.inl rfl⟩
      · exact ⟨_, _, rfl, rfl, rfl, rfl, by simp [writesOf_append, writesOf],
          by simp [readsOf_append, readsOf], by simp [createsOf_append, createsOf], Or.inr rfl⟩

theorem scannerScan_spec (f : Path) (w : World) :
    ∃ t b w1, scannerScan f w = Result.ok (t, b) w1 ∧ w1.cwd = w.cwd ∧ w1.stdout = w.stdout
      ∧ w1.fs = w.fs
      ∧ writesOf w1.trace = writesOf w.trace ∧ createsOf w1.trace = createsOf w.trace
      ∧ ((b = false ∧ ∃ l, readsOf w1.trace = readsOf w.trace ++ l)
        ∨ (∃ c, b = true ∧ w.fs.lstat f = some (Node.file c) ∧ scanLines c = some t
            ∧ readsOf w1.trace = readsOf w.trace ++ [(f, c)])) := by
  unfold scannerScan
  split
  · exact ⟨_, _, _, rfl, rfl, rfl, rfl, rfl, rfl, Or.inl ⟨rfl, [], by simp [World.tick]⟩⟩
  · split
    · rename_i c hc
      split
      · rename_i t ht
        exact ⟨_, _, _, rfl, rfl, rfl, rfl, by simp [writesOf_append, writesOf],
          by simp [createsOf_append, createsOf],
          Or.inr ⟨c, rfl, hc, ht, by simp [readsOf_append, readsOf]⟩⟩
      · exact ⟨_, _, _, rfl, rfl, rfl, rfl, by simp [writesOf_append, writesOf],
          by simp [createsOf_append, createsOf],
          Or.inl ⟨rfl, [(f, c)], by simp [readsOf_append, readsOf]⟩⟩
    · exact ⟨_, _, _, rfl, rfl, rfl, rfl, rfl, rfl, Or.inl ⟨rfl, [], by simp [World.tick]⟩⟩

theorem ioutilReadDir_spec (dirname : String) (w : World) :
    ∃ files e w1, ioutilReadDir dirname w = Result.ok (files, e) w1 ∧ w1.cwd = w.cwd
      ∧ w1.stdout = w.stdout ∧ w1.fs = w.fs
      ∧ writesOf w1.trace = writesOf w.trace ∧ readsOf w1.trace = readsOf w.trace
      ∧ createsOf w1.trace = createsOf w.trace
      ∧ (e = false → files = [])
      ∧ (e = true → w.fs.isDir (resolve w.cwd dirname) = true
          ∧ files = w.fs.list (resolve w.cwd dirname)) := by
  unfold ioutilReadDir
  split
  · exact ⟨_, _, _, rfl, rfl, rfl, rfl, rfl, rfl, rfl, fun _ => rfl, fun h => Bool.noConfusion h⟩
  · split
    · exact ⟨_, _, _, rfl, rfl, rfl, rfl, rfl, rfl, rfl, fun _ => rfl, fun h => Bool.noConfusion h⟩
    · rename_i p hp
      have hpe := namei_eq_resolve _ _ _ _ hp
      subst hpe
      split
      · rename_i hd
        exact ⟨_, _, _, rfl, rfl, rfl, rfl, by simp [writesOf_append, writesOf],
          by simp [readsOf_append, readsOf], by simp [createsOf_append, createsOf],
          fun h => Bool.noConfusion h, fun _ => ⟨hd, rfl⟩⟩
      · exact ⟨_, _, _, rfl, rfl, rfl, rfl, rfl, rfl, rfl, fun _ => rfl, fun h => Bool.noConfusion h⟩

/-! ## The functions of the program, one by one -/

theorem createFile_spec (u : UrlData) (OUT data : String) (w : World) :
    (∃ w1, createFile u OUT data w = Result.ok true w1 ∧ w1.cwd = w.cwd
        ∧ w1.stdout = w.stdout
        ∧ writesOf w1.trace = writesOf w.trace ++ [(pagePath w.cwd OUT u.Code, data)]
        ∧ readsOf w1.trace = readsOf w.trace
        ∧ createsOf w1.trace = createsOf w.trace ++ [pagePath w.cwd OUT u.Code]
        ∧ w1.fs.lstat (pagePath w.cwd OUT u.Code) = some (Node.file data)
        ∧ FilesKeptExcept (pagePath w.cwd OUT u.Code) w.fs w1.fs)
    ∨ (∃ wf, createFile u OUT data w = Result.fatal wf ∧ wf.cwd = w.cwd
        ∧ writesOf wf.trace = writesOf w.trace
        ∧ readsOf wf.trace = readsOf w.trace
        ∧ (createsOf wf.trace = createsOf w.trace
            ∨ createsOf wf.trace = createsOf w.trace ++ [pagePath w.cwd OUT u.Code])
        ∧ FilesKeptExcept (pagePath w.cwd OUT u.Code) w.fs wf.fs) := by
  obtain ⟨b1, w1, h1, c1, s1, k1, _, tw1, tr1, tc1⟩ := osMkdirAll_spec (filepathJoin [".", OUT]) w
  simp only [createFile, checkDir, bind_apply, h1]
  cases b1 with
  | false =>
    right
    exact ⟨_, rfl, c1, tw1, tr1, Or.inl tc1, k1.filesKeptExcept _⟩
  | true =>
    obtain ⟨b2, w2, h2, c2, s2, k2, _, tw2, tr2, tc2⟩ :=
      osMkdirAll_spec (filepathJoin [".", filepathJoin [OUT, u.Code]]) w1
    simp only [Bool.not_true, Bool.false_eq_true, if_false, bind_apply, h2]
    cases b2 with
    | false =>
      right
      exact ⟨_, rfl, c2.trans c1, tw2.trans tw1, tr2.trans tr1, Or.inl (tc2.trans tc1),
        (nodesKept_trans k1 k2).filesKeptExcept _⟩
    | true =>
      obtain ⟨r, w3, h3, c3, s3, tw3, tr3, hr⟩ :=
        osCreate_spec (filepathJoin [".", OUT, u.Code, "index.html"]) w2
      simp only [Bool.not_true, Bool.false_eq_true, if_false, bind_apply, h3]
      have hcwd : w2.cwd = w.cwd := c2.trans c1
      rcases hr with ⟨rfl, hfs, tc3⟩ | ⟨rfl, hne, hfs, tc3⟩
      · right
        refine ⟨_, rfl, c3.trans hcwd, ?_, ?_, Or.inl ?_, ?_⟩
        · simp [tw3, tw2, tw1]
        · simp [tr3, tr2, tr1]
        · simp [tc3, tc2, tc1]
        · simp only [fatalln, hfs]
          exact (nodesKept_trans k1 k2).filesKeptExcept _
      · rw [hcwd] at hfs tc3 hne
        have hk3 : FilesKeptExcept (pagePath w.cwd OUT u.Code) w.fs w3.fs := by
          rw [hfs]
          exact filesKeptExcept_trans ((nodesKept_trans k1 k2).filesKeptExcept _) (filesKeptExcept_set _ _ _)
        obtain ⟨b4, w4, h4, c4, s4, tr4, tc4, hw⟩ :=
          fileWriteString_spec (some (resolve w2.cwd (filepathJoin [".", OUT, u.Code,
            "index.html"]))) data w3
        simp only [Option.isNone_some, Bool.false_eq_true, if_false, bind_apply, h4]
        rcases hw with ⟨rfl, hfs4, tw4⟩ | ⟨p, c, rfl, hp, hget, hfs4, tw4⟩
        · right
          refine ⟨_, rfl, ?_, ?_, ?_, Or.inr ?_, ?_⟩
          · simp [fatalln, c4, c3, hcwd]
          · simp [fatalln, tw4, tw3, tw2, tw1]
          · simp [fatalln, tr4, tr3, tr2, tr1]
          · simp [fatalln, tc4, tc3, tc2, tc1, pagePath]
          · simp only [fatalln, hfs4]; exact hk3
        · left
          rw [hcwd] at hp
          cases hp
          have hc : c = "" := by
            rw [hfs, FS.get_set_same] at hget
            cases hget; rfl
          subst hc
          refine ⟨_, rfl, ?_, ?_, ?_, ?_, ?_, ?_, ?_⟩
          · simp [c4, c3, hcwd]
          · simp [s4, s3, s2, s1]
          · simp [tw4, tw3, tw2, tw1, pagePath]
          · simp [tr4, tr3, tr2, tr1]
          · simp [tc4, tc3, tc2, tc1, pagePath]
          · rw [hfs4]
            simp only [pagePath]
            rw [FS.lstat_set_same _ _ _ hne]
            simp
          · rw [hfs4]
            exact filesKeptExcept_trans hk3 (filesKeptExcept_set _ _ _)

theorem processUrl_spec (fpath N : String) (w : World) :
    (∃ U c w1, processUrl fpath N w = Result.ok (⟨U, N⟩, true) w1 ∧ w1.cwd = w.cwd
        ∧ w1.fs = w.fs ∧ w1.stdout = w.stdout
        ∧ w.fs.lstat (resolve w.cwd fpath) = some (Node.file c) ∧ scanLines c = some U
        ∧ readsOf w1.trace = readsOf w.trace ++ [(resolve w.cwd fpath, c)]
        ∧ writesOf w1.trace = writesOf w.trace ∧ createsOf w1.trace = createsOf w.trace)
    ∨ (∃ wf, processUrl fpath N w = Result.fatal wf ∧ wf.cwd = w.cwd ∧ wf.fs = w.fs
        ∧ writesOf wf.trace = writesOf w.trace ∧ createsOf wf.trace = createsOf w.trace
        ∧ ∃ l, readsOf wf.trace = readsOf w.trace ++ l) := by
  obtain ⟨r, w1, h1, c1, s1, f1, tw1, tr1, tc1, hr⟩ := osOpen_spec fpath w
  simp only [processUrl, bind_apply, h1]
  rcases hr with rfl | rfl
  · right
    exact ⟨_, rfl, c1, f1, tw1, tc1, [], by simp [fatalln, tr1]⟩
  · obtain ⟨t, b, w2, h2, c2, s2, f2, tw2, tc2, hb⟩ := scannerScan_spec (resolve w.cwd fpath) w1
    simp only [bind_apply, h2]
    rcases hb with ⟨rfl, l, hl⟩ | ⟨c, rfl, hc, hs, hl⟩
    · right
      refine ⟨_, rfl, ?_, ?_, ?_, ?_, l, ?_⟩
      · simp [fatalln, c2, c1]
      · simp [fatalln, f2, f1]
      · simp [fatalln, tw2, tw1]
      · simp [fatalln, tc2, tc1]
      · simp [fatalln, hl, tr1]
    · left
      rw [f1] at hc
      refine ⟨t, c, _, rfl, ?_, ?_, ?_, hc, hs, ?_, ?_, ?_⟩
      · simp [c2, c1]
      · simp [f2, f1]
      · simp [s2, s1]
      · simp [hl, tr1]
      · simp [tw2, tw1]
      · simp [tc2, tc1]

theorem createFrontpage_spec (env : Env) (OUT : String) (w : World) :
    ∃ b w1, createFrontpage env OUT w = Result.ok b w1 ∧ w1.cwd = w.cwd
      ∧ readsOf w1.trace = readsOf w.trace
      ∧ FilesKeptExcept (frontPath w.cwd OUT) w.fs w1.fs
      ∧ ((b = true ∧ w1.stdout = w.stdout
            ∧ w1.fs.lstat (frontPath w.cwd OUT) = some (Node.file env.frontsrc)
            ∧ writesOf w1.trace = writesOf w.trace ++ [(frontPath w.cwd OUT, env.frontsrc)]
            ∧ createsOf w1.trace = createsOf w.trace ++ [frontPath w.cwd OUT])
        ∨ (b = false ∧ (∃ m ∈ frontWarnings OUT, w1.stdout = w.stdout ++ [m])
            ∧ writesOf w1.trace = writesOf w.trace
            ∧ (createsOf w1.trace = createsOf w.trace
              ∨ createsOf w1.trace = createsOf w.trace ++ [frontPath w.cwd OUT]))) := by
  obtain ⟨b1, w1, h1, c1, s1, k1, _, tw1, tr1, tc1⟩ := osMkdirAll_spec (filepathJoin [".", OUT]) w
  simp only [createFrontpage, checkDir, bind_apply, h1]
  cases b1 with
  | false =>
    refine ⟨false, _, rfl, ?_, ?_, ?_, Or.inr ⟨rfl,
      ⟨"WARN: " ++ "Failed to create front page", ?_, ?_⟩, ?_, Or.inl ?_⟩⟩
    · simp [warnln, c1]
    · simp [warnln, tr1]
    · simp only [warnln]; exact k1.filesKeptExcept _
    · simp [frontWarnings]
    · simp [warnln, s1]
    · simp [warnln, tw1]
    · simp [warnln, tc1]
  | true =>
    obtain ⟨r, w3, h3, c3, s3, tw3, tr3, hr⟩ :=
      osCreate_spec (filepathJoin [".", OUT, "index.html"]) w1
    simp only [Bool.not_true, Bool.false_eq_true, if_false, bind_apply, h3]
    rcases hr with ⟨rfl, hfs, tc3⟩ | ⟨rfl, hne, hfs, tc3⟩
    · refine ⟨false, _, rfl, ?_, ?_, ?_, Or.inr ⟨rfl,
        ⟨"WARN: " ++ ("Failed to create front page at -> " ++
          filepathJoin [".", OUT, "index.html"]), ?_, ?_⟩, ?_, Or.inl ?_⟩⟩
      · simp [warnln, c3, c1]
      · simp [warnln, tr3, tr1]
      · simp only [warnln, hfs]; exact k1.filesKeptExcept _
      · simp [frontWarnings]
      · simp [warnln, s3, s1]
      · simp [warnln, tw3, tw1]
      · simp [warnln, tc3, tc1]
    · rw [c1] at hfs tc3 hne
      have hk3 : FilesKeptExcept (frontPath w.cwd OUT) w.fs w3.fs := by
        rw [hfs]
        exact filesKeptExcept_trans (k1.filesKeptExcept _) (filesKeptExcept_set _ _ _)
      obtain ⟨b4, w4, h4, c4, s4, tr4, tc4, hw⟩ :=
        fileWriteString_spec (some (resolve w1.cwd (filepathJoin [".", OUT, "index.html"])))
          env.frontsrc w3
      simp only [Option.isNone_some, Bool.false_eq_true, if_false, bind_apply, h4]
      rcases hw with ⟨rfl, hfs4, tw4⟩ | ⟨p, c, rfl, hp, hget, hfs4, tw4⟩
      · refine ⟨false, _, rfl, ?_, ?_, ?_, Or.inr ⟨rfl,
          ⟨"WARN: " ++ ("Failed to write to front page at -> " ++
            filepathJoin [".", OUT, "index.html"]), ?_, ?_⟩, ?_, Or.inr ?_⟩⟩
        · simp [warnln, fileClose, c4, c3, c1]
        · simp [warnln, fileClose, tr4, tr3, tr1]
        · simp only [warnln, fileClose, hfs4]; exact hk3
        · simp [frontWarnings]
        · simp [warnln, fileClose, s4, s3, s1]
        · simp [warnln, fileClose, tw4, tw3, tw1]
        · simp [warnln, fileClose, tc4, tc3, tc1, frontPath]
      · rw [c1] at hp
        cases hp
        have hc : c = "" := by
          rw [hfs, FS.get_set_same] at hget
          cases hget; rfl
        subst hc
        refine ⟨true, _, rfl, ?_, ?_, ?_, Or.inl ⟨rfl, ?_, ?_, ?_, ?_⟩⟩
        · simp [c4, c3, c1]
        · simp [tr4, tr3, tr1]
        · rw [hfs4]
          exact filesKeptExcept_trans hk3 (filesKeptExcept_set _ _ _)
        · simp [s4, s3, s1]
        · rw [hfs4]
          simp only [frontPath]
          rw [FS.lstat_set_same _ _ _ hne]
          simp
        · simp [tw4, tw3, tw1, frontPath]
        · simp [tc4, tc3, tc1, frontPath]

theorem readConfig_total (env : Env) (w : World) :
    ∃ conf isOk w1, readConfig env w = Result.ok (conf, isOk) w1 ∧ w1.fs = w.fs
      ∧ w1.cwd = w.cwd ∧ w1.faults = w.faults ∧ w1.clock = w.clock + 1
      ∧ writesOf w1.trace = writesOf w.trace ∧ readsOf w1.trace = readsOf w.trace
      ∧ createsOf w1.trace = createsOf w.trace := by
  obtain ⟨r, w1, h1, c1, _, f1, q1, k1, tw1, tr1, tc1⟩ :=
    osReadFile_spec (filepathJoin [".", "config.json"]) w
  simp only [readConfig, bind_apply, h1]
  cases r with
  | none =>
    refine ⟨_, _, _, rfl, ?_, ?_, ?_, ?_, ?_, ?_, ?_⟩ <;> simp [warnln, *]
  | some data =>
    simp only []
    split
    · refine ⟨_, _, _, rfl, ?_, ?_, ?_, ?_, ?_, ?_, ?_⟩ <;> simp [warnln, *]
    · refine ⟨_, _, _, rfl, ?_, ?_, ?_, ?_, ?_, ?_, ?_⟩ <;> simp [*]

theorem buildDirs_total (env : Env) (w : World) :
    ∃ OUT CDIR w1, buildDirs env w = Result.ok (OUT, CDIR) w1 ∧ w1.fs = w.fs
      ∧ w1.cwd = w.cwd ∧ w1.faults = w.faults ∧ w1.clock = w.clock + 1
      ∧ writesOf w1.trace = writesOf w.trace ∧ readsOf w1.trace = readsOf w.trace
      ∧ createsOf w1.trace = createsOf w.trace := by
  obtain ⟨conf, isOk, w1, h, f1, c1, q1, k1, tw1, tr1, tc1⟩ := readConfig_total env w
  simp only [buildDirs, bind_apply, h]
  cases isOk with
  | false =>
    refine ⟨_, _, _, rfl, ?_, ?_, ?_, ?_, ?_, ?_, ?_⟩ <;> simp [warnln, *]
  | true =>
    refine ⟨_, _, _, rfl, ?_, ?_, ?_, ?_, ?_, ?_, ?_⟩ <;> simp [*]

/-! ## Claim about the configuration -/

theorem readConfig_flag (env : Env) (w : World) (conf : Config) (isOk : Bool) (w1 : World)
    (h : readConfig env w = Result.ok (conf, isOk) w1) :
    isOk = true ↔
      ∃ data, (osReadFile (filepathJoin [".", "config.json"]) w).value? = some (some data)
        ∧ env.jsonUnmarshal data = (conf, true) := by
  obtain ⟨r, wr, hr, _⟩ := osReadFile_spec (filepathJoin [".", "config.json"]) w
  simp only [readConfig, bind_apply, hr] at h
  rw [hr]
  cases r with
  | none =>
    simp only [warnln, pure_apply, Result.ok.injEq, Prod.mk.injEq] at h
    obtain ⟨⟨_, rfl⟩, _⟩ := h
    simp [Result.value?]
  | some data =>
    simp only [] at h
    split at h
    · rename_i hc
      have hc2 : (!(env.jsonUnmarshal data).2) = true := hc
      simp only [bind_apply, warnln, pure_apply, Result.ok.injEq, Prod.mk.injEq] at h
      obtain ⟨⟨_, rfl⟩, _⟩ := h
      simp only [Result.value?, Option.some.injEq, Bool.false_eq_true, false_iff, not_exists,
        not_and]
      rintro d rfl hd
      rw [hd] at hc2
      simp at hc2
    · rename_i hc
      have hc2 : ¬ (!(env.jsonUnmarshal data).2) = true := hc
      simp only [pure_apply, Result.ok.injEq, Prod.mk.injEq] at h
      obtain ⟨⟨h1, rfl⟩, _⟩ := h
      have h1b : (env.jsonUnmarshal data).1 = conf := h1
      simp only [Result.value?, Option.some.injEq, true_iff]
      refine ⟨data, rfl, ?_⟩
      rw [← h1b]
      simp only [Bool.not_eq_true', Bool.not_eq_false] at hc2
      rw [← hc2]

/-- Claim C9, as stated, fails in one direction: with `./config.json` holding the default
document, `readConfig` reports success and the directories used are `public` and `urls`, the
defaults, although `readConfig` did not report failure. -/
theorem buildDirs_default_iff_counterexample :
    (readConfig demoEnv cfgWorld).value? = some (⟨"public", "urls"⟩, true)
      ∧ (buildDirs demoEnv cfgWorld).value? = some ("public", "urls") := by
  decide!

/-- Claim C9, amended: `readConfig` always returns; it reports success exactly when the file
could be read and the JSON reader accepted it. The directories used by `build` are the
defaults `public` and `urls` when it reports failure and exactly the parsed `output` and
`urldir` values when it reports success, with no defaulting of a single field (an empty field
stays empty). Hence the directories are the defaults if and only if `readConfig` reported
failure or the parsed values are themselves `public` and `urls`. -/
theorem buildDirs_spec (env : Env) (w : World) :
    ∃ conf isOk w1, readConfig env w = Result.ok (conf, isOk) w1
      ∧ (isOk = true ↔
          ∃ data, (osReadFile (filepathJoin [".", "config.json"]) w).value? = some (some data)
            ∧ env.jsonUnmarshal data = (conf, true))
      ∧ (buildDirs env w).value?
          = some (if isOk = true then (conf.Output, conf.Urldir) else ("public", "urls"))
      ∧ ((buildDirs env w).value? = some ("public", "urls") ↔
          (isOk = false ∨ (conf.Output = "public" ∧ conf.Urldir = "urls"))) := by
  obtain ⟨conf, isOk, w1, h, _⟩ := readConfig_total env w
  refine ⟨conf, isOk, w1, h, readConfig_flag env w conf isOk w1 h, ?_, ?_⟩
  · cases isOk <;> simp [buildDirs, h, warnln, Result.value?]
  · cases isOk <;> simp [buildDirs, h, warnln, Result.value?, Prod.ext_iff]

/-! ## The loop over the input files -/

theorem regularNames_cons_dir (f : DirEntry) (rest : List DirEntry) (h : f.isDir = true) :
    regularNames (f :: rest) = regularNames rest := by
  simp [regularNames, List.filter_cons, h]

theorem regularNames_cons_file (f : DirEntry) (rest : List DirEntry) (h : f.isDir = false) :
    regularNames (f :: rest) = f.name :: regularNames rest := by
  simp [regularNames, List.filter_cons, h]

theorem buildLoop_cons_dir (tmpl : Template) (OUT cd : String) (f : DirEntry)
    (rest : List DirEntry) (w : World) (h : f.isDir = true) :
    buildLoop tmpl OUT cd (f :: rest) w = buildLoop tmpl OUT cd rest w := by
  simp [buildLoop, h]

theorem buildLoop_cons_file (tmpl : Template) (OUT cd : String) (f : DirEntry)
    (rest : List DirEntry) (w : World) (h : f.isDir = false) :
    buildLoop tmpl OUT cd (f :: rest) w =
      match processUrl (cd ++ f.name) f.name w with
      | Result.ok (data, isOk) w1 =>
        if isOk = true then
          match createFile data OUT (execute tmpl data) w1 with
          | Result.ok _ w2 => buildLoop tmpl OUT cd rest w2
          | Result.fatal wf => Result.fatal wf
        else buildLoop tmpl OUT cd rest w1
      | Result.fatal wf => Result.fatal wf := by
  simp only [buildLoop, h, Bool.not_false, if_true, bind_apply]
  cases processUrl (cd ++ f.name) f.name w with
  | fatal wf => rfl
  | ok a w1 =>
    obtain ⟨data, isOk⟩ := a
    cases isOk with
    | false => simp
    | true =>
      simp only [if_true, bind_apply]
      cases createFile data OUT (execute tmpl data) w1 <;> simp

theorem buildLoop_append (tmpl : Template) (OUT cd : String) (a b : List DirEntry) :
    ∀ w : World, buildLoop tmpl OUT cd (a ++ b) w =
      match buildLoop tmpl OUT cd a w with
      | Result.ok _ w1 => buildLoop tmpl OUT cd b w1
      | Result.fatal wf => Result.fatal wf := by
  induction a with
  | nil => intro w; simp [buildLoop]
  | cons f rest ih =>
    intro w
    cases hf : f.isDir with
    | true =>
      rw [List.cons_append, buildLoop_cons_dir _ _ _ _ _ _ hf, buildLoop_cons_dir _ _ _ _ _ _ hf]
      exact ih w
    | false =>
      rw [List.cons_append, buildLoop_cons_file _ _ _ _ _ _ hf,
        buildLoop_cons_file _ _ _ _ _ _ hf]
      cases processUrl (cd ++ f.name) f.name w with
      | fatal wf => rfl
      | ok x w1 =>
        obtain ⟨data, isOk⟩ := x
        cases isOk with
        | false => simpa using ih w1
        | true =>
          simp only [if_true]
          cases createFile data OUT (execute tmpl data) w1 with
          | fatal wf => rfl
          | ok _ w2 => simpa using ih w2

theorem firstLine_of_scanLines {c U : String} (h : scanLines c = some U) : firstLine c = U := by
  simp [firstLine, h]

theorem buildLoop_ok (tmpl : Template) (OUT cd : String) (files : List DirEntry) :
    ∀ w w1 : World, buildLoop tmpl OUT cd files w = Result.ok () w1 →
      w1.cwd = w.cwd ∧ w1.stdout = w.stdout
      ∧ ∃ cs : List String, cs.length = (regularNames files).length
        ∧ (∀ c ∈ cs, (scanLines c).isSome = true)
        ∧ readsOf w1.trace = readsOf w.trace ++
            List.zipWith (fun F c => (resolve w.cwd (cd ++ F), c)) (regularNames files) cs
        ∧ writesOf w1.trace = writesOf w.trace ++
            List.zipWith (fun F c => (pagePath w.cwd OUT F, execute tmpl ⟨firstLine c, F⟩))
              (regularNames files) cs
        ∧ createsOf w1.trace = createsOf w.trace ++ (regularNames files).map (pagePath w.cwd OUT)
        ∧ (∀ p c, p ∉ (regularNames files).map (pagePath w.cwd OUT) →
            w.fs.lstat p = some (Node.file c) → w1.fs.lstat p = some (Node.file c))
        ∧ (∀ F c, (F, c) ∈ List.zip (regularNames files) cs →
            (∀ G ∈ regularNames files, pagePath w.cwd OUT G ≠ resolve w.cwd (cd ++ F)) →
            ∀ c0, w.fs.lstat (resolve w.cwd (cd ++ F)) = some (Node.file c0) → c = c0)
        ∧ (((regularNames files).map (pagePath w.cwd OUT)).Nodup →
            ∀ F c, (F, c) ∈ List.zip (regularNames files) cs →
              w1.fs.lstat (pagePath w.cwd OUT F)
                = some (Node.file (execute tmpl ⟨firstLine c, F⟩))) := by
  induction files with
  | nil =>
    intro w w1 h
    simp only [buildLoop, pure_apply] at h
    cases h
    exact ⟨rfl, rfl, [], by simp [regularNames]⟩
  | cons f rest ih =>
    intro w w1 h
    cases hf : f.isDir with
    | true =>
      rw [buildLoop_cons_dir _ _ _ _ _ _ hf] at h
      rw [regularNames_cons_dir _ _ hf]
      exact ih w w1 h
    | false =>
      rw [buildLoop_cons_file _ _ _ _ _ _ hf] at h
      rw [regularNames_cons_file _ _ hf]
      rcases processUrl_spec (cd ++ f.name) f.name w with
        ⟨U, c, wa, hp, ca, fa, sa, hc, hs, tra, twa, tca⟩ | ⟨wf, hp, _⟩
      · rw [hp] at h
        simp only [if_true] at h
        rcases createFile_spec ⟨U, f.name⟩ OUT (execute tmpl ⟨U, f.name⟩) wa with
          ⟨wb, hcf, cb, sb, twb, trb, tcb, lb, kb⟩ | ⟨wf, hcf, _⟩
        · rw [hcf] at h
          simp only at h
          obtain ⟨c2, s2, cs, hlen, hsome, tr2, tw2, tc2, k2, e2, p2⟩ := ih wb w1 h
          have hcwd : wb.cwd = w.cwd := cb.trans ca
          rw [hcwd] at tr2 tw2 tc2 k2 e2 p2
          rw [ca] at twb tcb kb lb
          rw [fa] at kb
          refine ⟨c2.trans hcwd, by rw [s2, sb, sa], c :: cs, by simp [hlen], ?_, ?_, ?_, ?_,
            ?_, ?_, ?_⟩
          · intro x hx
            simp only [List.mem_cons] at hx
            rcases hx with rfl | hx
            · simp [hs]
            · exact hsome x hx
          · rw [tr2, trb, tra]; simp
          · rw [tw2, twb, twa]; simp [firstLine_of_scanLines hs]
          · rw [tc2, tcb, tca]; simp
          · intro p x hp1 hx
            simp only [List.map_cons, List.mem_cons, not_or] at hp1
            exact k2 p x hp1.2 (kb p x hp1.1 hx)
          · intro F x hmem hno c0 hc0
            simp only [List.zip_cons_cons, List.mem_cons, Prod.mk.injEq] at hmem
            rcases hmem with ⟨rfl, rfl⟩ | hmem
            · rw [hc] at hc0
              cases hc0; rfl
            · refine e2 F x hmem (fun G hG => hno G (by simp [hG])) c0 ?_
              exact kb _ _ (fun e => hno f.name (by simp) e.symm) hc0
          · intro hnd F x hmem
            simp only [List.map_cons, List.nodup_cons] at hnd
            simp only [List.zip_cons_cons, List.mem_cons, Prod.mk.injEq] at hmem
            rcases hmem with ⟨rfl, rfl⟩ | hmem
            · rw [firstLine_of_scanLines hs]
              exact k2 _ _ hnd.1 lb
            · exact p2 hnd.2 F x hmem
        · rw [hcf] at h
          cases h
      · rw [hp] at h
        cases h

/-! ## `build` as a whole -/

theorem lexWalk_append_empty (cs : List String) :
    ∀ cur : Path, lexWalk cur (cs ++ [""]) = lexWalk cur cs := by
  induction cs with
  | nil => intro cur; simp [lexWalk]
  | cons a rest ih =>
    intro cur
    simp only [List.cons_append, lexWalk]
    split
    · exact ih _
    · split
      · exact ih _
      · exact ih _

theorem isRooted_contentDirOf (cwd : Path) (CDIR tail : String) :
    isRooted (contentDirOf cwd CDIR ++ tail) = true := by
  simp [isRooted, contentDirOf, String.data_append]

theorem splitPath_empty : splitPath "" = [""] := by decide

theorem resolve_contentDir_entry (cwd : Path) (CDIR F : String) (hF : ValidName F) :
    resolve cwd (contentDirOf cwd CDIR ++ F) = resolve cwd (contentDirOf cwd CDIR) ++ [F] := by
  have h1 := isRooted_contentDirOf cwd CDIR F
  have h2 := isRooted_contentDirOf cwd CDIR ""
  rw [String.append_empty] at h2
  unfold resolve
  rw [h1, h2]
  simp only [if_true]
  have e1 : contentDirOf cwd CDIR ++ F = ("/" ++ stringsJoin cwd ++ "/" ++ CDIR) ++ "/" ++ F := by
    simp [contentDirOf, String.append_assoc]
  have e2 : contentDirOf cwd CDIR = ("/" ++ stringsJoin cwd ++ "/" ++ CDIR) ++ "/" ++ "" := by
    simp [contentDirOf, String.append_assoc]
  rw [e1, splitPath_append, splitPath_noSlash F hF.noSlash, lexWalk_append_valid F hF]
  conv_rhs => rw [e2, splitPath_append, splitPath_empty, lexWalk_append_empty]

theorem buildFrom_eq (env : Env) (OUT CDIR : String) (w : World) :
    buildFrom env OUT CDIR w =
      match ioutilReadDir (contentDirOf w.cwd CDIR) w with
      | Result.ok (files, _) w1 =>
        match env.templateParse env.tmplsrc with
        | none => fatalln "Failed to read Template file" w1
        | some tmpl =>
          if files.length < 1 then fatalln "URLs directory is empty" w1
          else
            match buildLoop tmpl OUT (contentDirOf w.cwd CDIR) files w1 with
            | Result.ok _ w2 =>
              match createFrontpage env OUT w2 with
              | Result.ok _ w3 => Result.ok () w3
              | Result.fatal wf => Result.fatal wf
            | Result.fatal wf => Result.fatal wf
      | Result.fatal wf => Result.fatal wf := by
  simp only [buildFrom, bind_apply, osGetwd, contentDirOf]
  cases ioutilReadDir ("/" ++ stringsJoin w.cwd ++ "/" ++ CDIR ++ "/") w with
  | fatal wf => rfl
  | ok x w1 =>
    obtain ⟨files, e⟩ := x
    simp only []
    cases env.templateParse env.tmplsrc with
    | none => rfl
    | some tmpl =>
      simp only []
      split
      · rfl
      · simp only [bind_apply]
        cases buildLoop tmpl OUT ("/" ++ stringsJoin w.cwd ++ "/" ++ CDIR ++ "/") files w1 with
        | fatal wf => rfl
        | ok _ w2 =>
          simp only []
          cases createFrontpage env OUT w2 <;> rfl

theorem build_eq (env : Env) (w w0 : World) (OUT CDIR : String)
    (h : buildDirs env w = Result.ok (OUT, CDIR) w0) :
    build env w = buildFrom env OUT CDIR w0 := by
  simp [build, h]

/-! ## Output locations and listings -/

theorem validName_index : ValidName "index.html" := by decide

theorem outEntryPath_eq (cwd : Path) (OUT X : String) (hX : ValidName X) :
    outEntryPath cwd OUT X = outPath cwd OUT ++ [X] := by
  unfold outEntryPath outPath
  exact resolve_join_append cwd [OUT] X hX

theorem pagePath_eq (cwd : Path) (OUT X : String) (hX : ValidName X) :
    pagePath cwd OUT X = outPath cwd OUT ++ [X, "index.html"] := by
  unfold pagePath outPath
  have h1 := resolve_join_append cwd [OUT, X] "index.html" validName_index
  have h2 := resolve_join_append cwd [OUT] X hX
  simp only [List.cons_append, List.nil_append] at h1 h2
  rw [h1, h2]
  simp

theorem frontPath_eq (cwd : Path) (OUT : String) :
    frontPath cwd OUT = outPath cwd OUT ++ ["index.html"] := by
  unfold frontPath outPath
  exact resolve_join_append cwd [OUT] "index.html" validName_index

theorem mem_insertByName (e x : DirEntry) (l : List DirEntry) :
    x ∈ insertByName e l ↔ x = e ∨ x ∈ l := by
  induction l with
  | nil => simp [insertByName]
  | cons a rest ih =>
    simp only [insertByName]
    split
    · simp
    · simp only [List.mem_cons, ih]
      tauto

theorem mem_sortByName (x : DirEntry) (l : List DirEntry) : x ∈ sortByName l ↔ x ∈ l := by
  induction l with
  | nil => simp [sortByName]
  | cons a rest ih =>
    have : sortByName (a :: rest) = insertByName a (sortByName rest) := rfl
    rw [this, mem_insertByName, ih]
    simp

theorem FS.get_of_mem (fs : FS) (q : Path) (n : Node) (h : (q, n) ∈ fs) :
    ∃ m, fs.get q = some m := by
  induction fs with
  | nil => cases h
  | cons e rest ih =>
    obtain ⟨k, m⟩ := e
    simp only [FS.get]
    split
    · exact ⟨m, rfl⟩
    · simp only [List.mem_cons, Prod.mk.injEq] at h
      rcases h with ⟨rfl, _⟩ | h
      · rename_i hne; exact absurd rfl hne
      · exact ih h

theorem mem_children (fs : FS) (d : Path) (n : String) (h : n ∈ fs.children d) :
    ∃ e ∈ fs, e.1 = d ++ [n] := by
  unfold FS.children at h
  simp only [List.mem_filterMap] at h
  obtain ⟨e, he, hn⟩ := h
  refine ⟨e, he, ?_⟩
  split at hn
  · rename_i hd
    rw [List.getLast?_eq_some_iff] at hn
    obtain ⟨ys, hys⟩ := hn
    rw [hys] at hd
    simp only [List.dropLast_concat] at hd
    rw [hys, hd]
  · cases hn

theorem mem_list (fs : FS) (d : Path) (x : DirEntry) (h : x ∈ fs.list d) :
    x.isDir = fs.isDir (d ++ [x.name]) ∧ (∃ e ∈ fs, e.1 = d ++ [x.name])
      ∧ ∃ n, fs.lstat (d ++ [x.name]) = some n := by
  unfold FS.list at h
  rw [mem_sortByName] at h
  simp only [List.mem_map] at h
  obtain ⟨n, hn, rfl⟩ := h
  obtain ⟨e, he, hk⟩ := mem_children fs d n hn
  refine ⟨rfl, ⟨e, he, hk⟩, ?_⟩
  obtain ⟨m, hm⟩ := FS.get_of_mem fs e.1 e.2 he
  rw [hk] at hm
  exact ⟨m, by simp [FS.lstat, hm]⟩

theorem wellFormed_list (fs : FS) (hwf : fs.wellFormed = true) (d : Path) (x : DirEntry)
    (h : x ∈ fs.list d) : ValidName x.name := by
  obtain ⟨_, ⟨e, he, hk⟩, _⟩ := mem_list fs d x h
  unfold FS.wellFormed at hwf
  simp only [List.all_eq_true, decide_eq_true_eq] at hwf
  exact hwf e he x.name (by rw [hk]; simp)

theorem mem_regularNames (files : List DirEntry) (F : String) (h : F ∈ regularNames files) :
    ∃ f ∈ files, f.isDir = false ∧ f.name = F := by
  unfold regularNames at h
  simp only [List.mem_map, List.mem_filter, Bool.not_eq_true'] at h
  obtain ⟨f, ⟨hf, hd⟩, rfl⟩ := h
  exact ⟨f, hf, hd, rfl⟩

theorem zipWith_congr_left {α β γ : Type} (f g : α → β → γ) (l : List α) (l2 : List β)
    (h : ∀ a ∈ l, ∀ b, f a b = g a b) : List.zipWith f l l2 = List.zipWith g l l2 := by
  induction l generalizing l2 with
  | nil => simp
  | cons a rest ih =>
    cases l2 with
    | nil => simp
    | cons b r2 =>
      simp only [List.zipWith_cons_cons]
      rw [h a (by simp) b, ih r2 (fun x hx => h x (by simp [hx]))]

theorem mem_zipWith_left {α β γ : Type} (f : α → β → γ) (l : List α) (l2 : List β) (x : γ)
    (h : x ∈ List.zipWith f l l2) : ∃ a ∈ l, ∃ b, x = f a b := by
  induction l generalizing l2 with
  | nil => simp at h
  | cons a rest ih =>
    cases l2 with
    | nil => simp at h
    | cons b r2 =>
      simp only [List.zipWith_cons_cons, List.mem_cons] at h
      rcases h with rfl | h
      · exact ⟨a, by simp, b, rfl⟩
      · obtain ⟨a2, ha2, b2, hx⟩ := ih r2 h
        exact ⟨a2, by simp [ha2], b2, hx⟩

theorem eq_map_of_zip {α β : Type} (g : α → β) (l : List α) (cs : List β)
    (hlen : cs.length = l.length) (h : ∀ a c, (a, c) ∈ List.zip l cs → c = g a) :
    cs = l.map g := by
  induction l generalizing cs with
  | nil =>
    cases cs with
    | nil => rfl
    | cons c r => simp at hlen
  | cons a rest ih =>
    cases cs with
    | nil => simp at hlen
    | cons c r =>
      simp only [List.length_cons, Nat.add_right_cancel_iff] at hlen
      rw [List.map_cons, h a c (by simp), ih r hlen (fun a2 c2 hm => h a2 c2 (by simp [hm]))]

/-! ## Claims about `build` -/

/-- Claim C5: whenever the input directory cannot be enumerated or is empty, `build` ends with
a fatal error before anything is written: the filesystem is the one it started with, no file
was created and no data written. When the embedded template parses, the line printed last is
the error `URLs directory is empty` (this holds for the directory that cannot be enumerated
too, because its error is overwritten before it is looked at). -/
theorem build_empty_input_fatal (env : Env) (w w0 w1 : World) (OUT CDIR : String)
    (files : List DirEntry) (e : Bool)
    (hdirs : buildDirs env w = Result.ok (OUT, CDIR) w0)
    (hlist : ioutilReadDir (contentDirOf w0.cwd CDIR) w0 = Result.ok (files, e) w1)
    (hbad : e = false ∨ files = []) :
    (build env w).isFatal = true
      ∧ (build env w).world.fs = w.fs
      ∧ writesOf (build env w).world.trace = writesOf w.trace
      ∧ createsOf (build env w).world.trace = createsOf w.trace
      ∧ (∀ tmpl, env.templateParse env.tmplsrc = some tmpl →
          (build env w).world.stdout = w1.stdout ++ ["ERROR: URLs directory is empty"]) := by
  obtain ⟨O2, C2, w0b, hd, f0, c0, _, _, tw0, _, tc0⟩ := buildDirs_total env w
  rw [hdirs] at hd
  cases hd
  obtain ⟨fl, e2, w1b, hl, c1, s1, f1, tw1, _, tc1, herr, _⟩ :=
    ioutilReadDir_spec (contentDirOf w0.cwd CDIR) w0
  rw [hlist] at hl
  cases hl
  have hnil : files = [] := by
    rcases hbad with h | h
    · exact herr h
    · exact h
  subst hnil
  rw [build_eq env w w0 OUT CDIR hdirs, buildFrom_eq, hlist]
  cases ht : env.templateParse env.tmplsrc with
  | none =>
    simp only [fatalln, Result.isFatal, Result.world]
    exact ⟨trivial, by rw [f1, f0], by rw [tw1, tw0], by rw [tc1, tc0], fun t h => by cases h⟩
  | some tmpl =>
    simp only [List.length_nil, Nat.lt_one_iff, if_true, fatalln, Result.isFatal, Result.world]
    refine ⟨trivial, by rw [f1, f0], by rw [tw1, tw0], by rw [tc1, tc0], fun t _ => ?_⟩
    have : "ERROR: " ++ "URLs directory is empty" = "ERROR: URLs directory is empty" := by
      decide
    rw [this]

/-- Claim C2, amended: after a build that returns without a fatal error and without a
front-page warning on standard output, `<output>/index.html` is a regular file whose content
is the embedded front page, whatever was there before. (A front page that cannot be written is
a warning, not a fatal error; the build still returns.) -/
theorem build_front_page (env : Env) (w w0 w1 : World) (OUT CDIR : String)
    (hdirs : buildDirs env w = Result.ok (OUT, CDIR) w0)
    (hbuild : build env w = Result.ok () w1)
    (hquiet : ∀ m ∈ frontWarnings OUT, m ∉ w1.stdout) :
    w1.fs.lstat (frontPath w.cwd OUT) = some (Node.file env.frontsrc) := by
  obtain ⟨O2, C2, w0b, hd, _, c0, _⟩ := buildDirs_total env w
  rw [hdirs] at hd
  cases hd
  rw [build_eq env w w0 OUT CDIR hdirs, buildFrom_eq] at hbuild
  obtain ⟨fl, e2, wa, hl, ca, _⟩ := ioutilReadDir_spec (contentDirOf w0.cwd CDIR) w0
  rw [hl] at hbuild
  simp only [] at hbuild
  cases ht : env.templateParse env.tmplsrc with
  | none => rw [ht] at hbuild; simp [fatalln] at hbuild
  | some tmpl =>
    rw [ht] at hbuild
    simp only [] at hbuild
    split at hbuild
    · simp [fatalln] at hbuild
    · cases hloop : buildLoop tmpl OUT (contentDirOf w0.cwd CDIR) fl wa with
      | fatal wf => rw [hloop] at hbuild; cases hbuild
      | ok u wb =>
        rw [hloop] at hbuild
        simp only [] at hbuild
        obtain ⟨cb, _⟩ := buildLoop_ok tmpl OUT _ fl wa wb hloop
        obtain ⟨b, wc, hfp, cc, _, _, hcase⟩ := createFrontpage_spec env OUT wb
        rw [hfp] at hbuild
        simp only [] at hbuild
        cases hbuild
        have hcwd : wb.cwd = w.cwd := by rw [cb, ca, c0]
        rw [hcwd] at hcase
        rcases hcase with ⟨_, _, hfile, _⟩ | ⟨_, ⟨m, hm, hout⟩, _⟩
        · exact hfile
        · exfalso
          apply hquiet m hm
          rw [hout]
          simp

theorem under_entry_page (base : Path) (D F : String) (hne : F ≠ D) :
    ¬ Under (base ++ [D]) (base ++ [F, "index.html"]) := by
  rintro ⟨rest, _, h⟩
  rw [List.append_assoc, List.append_cancel_left_eq] at h
  simp only [List.singleton_append, List.cons.injEq] at h
  exact hne h.1

theorem under_entry_front (base : Path) (D : String) :
    ¬ Under (base ++ [D]) (base ++ ["index.html"]) := by
  rintro ⟨rest, hrest, h⟩
  rw [List.append_assoc, List.append_cancel_left_eq] at h
  simp only [List.singleton_append, List.cons.injEq] at h
  exact hrest h.2.symm

/-- Claim C1: when `build` completes without a fatal error in a filesystem whose names are
valid, it has read every regular file of the listing of the input directory once, in listing
order, and the pages it has written are exactly one per regular file, in the same order: for
the file `F` the page `<output>/F/index.html`, holding the template rendered on the record with
`Url` the first line of what was read from `F` and `Code = F` as it is. After them at most the
front page is written. When no page location is the location of an input file, what was read
from `F` is the content `F` had when the build started. When the names of the listing are
distinct, each page is on disk with that content when the build returns. For every directory
entry `D` of the listing nothing is written strictly below `<output>/D`. -/
theorem build_pages (env : Env) (w w1 : World)
    (hwf : w.fs.wellFormed = true)
    (hbuild : build env w = Result.ok () w1) :
    ∃ (OUT CDIR : String) (tmpl : Template) (w0 : World) (cs : List String)
        (front : List (Path × String)),
      buildDirs env w = Result.ok (OUT, CDIR) w0
      ∧ env.templateParse env.tmplsrc = some tmpl
      ∧ w.fs.isDir (inputDir w.cwd CDIR) = true
      ∧ cs.length = (regularNames (w.fs.list (inputDir w.cwd CDIR))).length
      ∧ (∀ c ∈ cs, (scanLines c).isSome = true)
      ∧ readsOf w1.trace = readsOf w.trace ++
          List.zipWith (fun F c => (inputDir w.cwd CDIR ++ [F], c))
            (regularNames (w.fs.list (inputDir w.cwd CDIR))) cs
      ∧ writesOf w1.trace = writesOf w.trace ++
          pagesFor tmpl w.cwd OUT (regularNames (w.fs.list (inputDir w.cwd CDIR))) cs ++ front
      ∧ (front = [] ∨ front = [(frontPath w.cwd OUT, env.frontsrc)])
      ∧ ((∀ F ∈ regularNames (w.fs.list (inputDir w.cwd CDIR)),
            ∀ G ∈ regularNames (w.fs.list (inputDir w.cwd CDIR)),
              pagePath w.cwd OUT G ≠ inputDir w.cwd CDIR ++ [F]) →
          cs = (regularNames (w.fs.list (inputDir w.cwd CDIR))).map
            (fun F => w.fs.contentAt (inputDir w.cwd CDIR ++ [F])))
      ∧ ((regularNames (w.fs.list (inputDir w.cwd CDIR))).Nodup →
          ∀ F c, (F, c) ∈ List.zip (regularNames (w.fs.list (inputDir w.cwd CDIR))) cs →
            w1.fs.lstat (pagePath w.cwd OUT F)
              = some (Node.file (execute tmpl ⟨firstLine c, F⟩)))
      ∧ (∀ D ∈ w.fs.list (inputDir w.cwd CDIR), D.isDir = true →
          ∀ wr ∈ pagesFor tmpl w.cwd OUT (regularNames (w.fs.list (inputDir w.cwd CDIR))) cs
              ++ front,
            ¬ Under (outEntryPath w.cwd OUT D.name) wr.1) := by
  obtain ⟨OUT, CDIR, w0, hdirs, f0, c0, _, _, tw0, tr0, _⟩ := buildDirs_total env w
  rw [build_eq env w w0 OUT CDIR hdirs, buildFrom_eq] at hbuild
  obtain ⟨fl, e, wa, hl, ca, _, fa, twa, tra, _, herr, hok⟩ :=
    ioutilReadDir_spec (contentDirOf w0.cwd CDIR) w0
  rw [hl] at hbuild
  simp only [] at hbuild
  cases ht : env.templateParse env.tmplsrc with
  | none => rw [ht] at hbuild; simp [fatalln] at hbuild
  | some tmpl =>
    rw [ht] at hbuild
    simp only [] at hbuild
    split at hbuild
    · simp [fatalln] at hbuild
    · rename_i hlen
      have he : e = true := by
        cases e with
        | true => rfl
        | false => rw [herr rfl] at hlen; simp at hlen
      obtain ⟨hdir, hfl⟩ := hok he
      rw [f0, c0] at hdir hfl
      rw [c0] at hbuild
      change w.fs.isDir (inputDir w.cwd CDIR) = true at hdir
      change fl = w.fs.list (inputDir w.cwd CDIR) at hfl
      subst hfl
      cases hloop : buildLoop tmpl OUT (contentDirOf w.cwd CDIR)
          (w.fs.list (inputDir w.cwd CDIR)) wa with
      | fatal wf => rw [hloop] at hbuild; cases hbuild
      | ok u wb =>
        rw [hloop] at hbuild
        simp only [] at hbuild
        obtain ⟨cb, _, cs, hlen2, hsome, trb, twb, _, _, halias, hpages⟩ :=
          buildLoop_ok tmpl OUT _ _ wa wb hloop
        obtain ⟨b, wc, hfp, cc, trc, kfront, hcase⟩ := createFrontpage_spec env OUT wb
        rw [hfp] at hbuild
        simp only [] at hbuild
        cases hbuild
        have hwa : wa.cwd = w.cwd := by rw [ca, c0]
        have hwb : wb.cwd = w.cwd := by rw [cb, hwa]
        rw [hwa] at trb twb halias hpages
        rw [hwb] at hcase kfront
        rw [fa, f0] at halias
        have hvalid : ∀ F ∈ regularNames (w.fs.list (inputDir w.cwd CDIR)), ValidName F := by
          intro F hF
          obtain ⟨f, hf, _, rfl⟩ := mem_regularNames _ F hF
          exact wellFormed_list w.fs hwf _ f hf
        have hpath : ∀ F ∈ regularNames (w.fs.list (inputDir w.cwd CDIR)),
            resolve w.cwd (contentDirOf w.cwd CDIR ++ F) = inputDir w.cwd CDIR ++ [F] :=
          fun F hF => resolve_contentDir_entry w.cwd CDIR F (hvalid F hF)
        have hreads : List.zipWith (fun F c => (resolve w.cwd (contentDirOf w.cwd CDIR ++ F), c))
            (regularNames (w.fs.list (inputDir w.cwd CDIR))) cs =
            List.zipWith (fun F c => (inputDir w.cwd CDIR ++ [F], c))
              (regularNames (w.fs.list (inputDir w.cwd CDIR))) cs :=
          zipWith_congr_left _ _ _ _ (fun F hF c => by rw [hpath F hF])
        have hfront : ∃ front : List (Path × String),
            writesOf w1.trace = writesOf wb.trace ++ front
            ∧ (front = [] ∨ front = [(frontPath w.cwd OUT, env.frontsrc)]) := by
          rcases hcase with ⟨_, _, _, hw, _⟩ | ⟨_, _, hw, _⟩
          · exact ⟨_, hw, Or.inr rfl⟩
          · exact ⟨[], by simp [hw], Or.inl rfl⟩
        obtain ⟨front, hwfront, hfrontcase⟩ := hfront
        refine ⟨OUT, CDIR, tmpl, w0, cs, front, hdirs, rfl, hdir, hlen2, hsome, ?_, ?_,
          hfrontcase, ?_, ?_, ?_⟩
        · rw [trc, trb, tra, tr0, hreads]
        · rw [hwfront, twb, twa, tw0]; rfl
        · intro hno
          apply eq_map_of_zip _ _ _ hlen2
          intro F c hmem
          have hF : F ∈ regularNames (w.fs.list (inputDir w.cwd CDIR)) :=
            (List.of_mem_zip hmem).1
          obtain ⟨f, hf, hfd, rfl⟩ := mem_regularNames _ F hF
          obtain ⟨hd2, _, n, hn⟩ := mem_list w.fs _ f hf
          have hfile : ∃ c0, w.fs.lstat (inputDir w.cwd CDIR ++ [f.name])
              = some (Node.file c0) := by
            cases n with
            | file c0 => exact ⟨c0, hn⟩
            | dir =>
              rw [hfd] at hd2
              simp [FS.isDir, hn] at hd2
          obtain ⟨c0, hc0⟩ := hfile
          have := halias f.name c hmem
            (fun G hG => by rw [hpath f.name hF]; exact hno f.name hF G hG) c0
            (by rw [hpath f.name hF]; exact hc0)
          rw [this]
          simp [FS.contentAt, hc0]
        · intro hnd F c hmem
          have hF : F ∈ regularNames (w.fs.list (inputDir w.cwd CDIR)) :=
            (List.of_mem_zip hmem).1
          have hmap : ((regularNames (w.fs.list (inputDir w.cwd CDIR))).map
              (pagePath w.cwd OUT)).Nodup := by
            refine List.Nodup.map_on ?_ hnd
            intro x hx y hy hxy
            rw [pagePath_eq _ _ _ (hvalid x hx), pagePath_eq _ _ _ (hvalid y hy),
              List.append_cancel_left_eq] at hxy
            simp only [List.cons.injEq] at hxy
            exact hxy.1
          refine kfront _ _ ?_ (hpages hmap F c hmem)
          rw [pagePath_eq _ _ _ (hvalid F hF), frontPath_eq]
          intro e
          rw [List.append_cancel_left_eq] at e
          simp at e
        · intro D hD hDdir wr hwr
          have hDv : ValidName D.name := wellFormed_list w.fs hwf _ D hD
          rw [outEntryPath_eq _ _ _ hDv]
          simp only [List.mem_append] at hwr
          rcases hwr with hwr | hwr
          · obtain ⟨F, hF, c, rfl⟩ := mem_zipWith_left _ _ _ _ hwr
            simp only
            rw [pagePath_eq _ _ _ (hvalid F hF)]
            apply under_entry_page
            rintro rfl
            obtain ⟨f, hf, hfd, hname⟩ := mem_regularNames _ _ hF
            have h1 := (mem_list w.fs _ f hf).1
            have h2 := (mem_list w.fs _ D hD).1
            rw [hname] at h1
            rw [h1, ← h2, hDdir] at hfd
            cases hfd
          · rcases hfrontcase with rfl | rfl
            · cases hwr
            · simp only [List.mem_singleton] at hwr
              subst hwr
              simp only
              rw [frontPath_eq]
              exact under_entry_front _ _

/-- Claim C10: if writing the page of a regular file `F` fails at any of its steps, after the
files listed before `F` were processed and `F` was read, then `build` ends at once with the
fatal error of that step: the outcome is the world in which the step failed, so nothing is read
after `F`, nothing is written after the pages of the files before `F` (no later page, no front
page), and every regular file other than the page of `F` itself keeps its content, in
particular the pages of the files before `F`. -/
theorem build_aborts_on_page_failure (env : Env) (w w0 w00 wk wr wf : World)
    (OUT CDIR : String) (tmpl : Template) (before after : List DirEntry) (F : DirEntry)
    (e : Bool) (d : UrlData)
    (hdirs : buildDirs env w = Result.ok (OUT, CDIR) w0)
    (htmpl : env.templateParse env.tmplsrc = some tmpl)
    (hlist : ioutilReadDir (contentDirOf w0.cwd CDIR) w0
      = Result.ok (before ++ F :: after, e) w00)
    (hF : F.isDir = false)
    (hbefore : buildLoop tmpl OUT (contentDirOf w0.cwd CDIR) before w00 = Result.ok () wk)
    (hread : processUrl (contentDirOf w0.cwd CDIR ++ F.name) F.name wk = Result.ok (d, true) wr)
    (hfail : createFile d OUT (execute tmpl d) wr = Result.fatal wf) :
    build env w = Result.fatal wf
      ∧ readsOf wf.trace = readsOf wr.trace
      ∧ writesOf wf.trace = writesOf wk.trace
      ∧ (∀ p c, p ≠ pagePath w.cwd OUT F.name →
          wk.fs.lstat p = some (Node.file c) → wf.fs.lstat p = some (Node.file c))
      ∧ (∀ G ∈ regularNames before, ValidName G → ValidName F.name → G ≠ F.name →
          ∀ c, wk.fs.lstat (pagePath w.cwd OUT G) = some (Node.file c) →
            wf.fs.lstat (pagePath w.cwd OUT G) = some (Node.file c)) := by
  obtain ⟨O2, C2, w0b, hd, _, c0, _⟩ := buildDirs_total env w
  rw [hdirs] at hd
  cases hd
  obtain ⟨_, _, _, hl, ca, _⟩ := ioutilReadDir_spec (contentDirOf w0.cwd CDIR) w0
  rw [hlist] at hl
  cases hl
  obtain ⟨cb, _⟩ := buildLoop_ok tmpl OUT _ before w00 wk hbefore
  have hcwd : wk.cwd = w.cwd := by rw [cb, ca, c0]
  have hbuild : build env w = Result.fatal wf := by
    rw [build_eq env w w0 OUT CDIR hdirs, buildFrom_eq, hlist]
    simp only [htmpl]
    rw [if_neg (by simp), buildLoop_append, hbefore]
    simp only []
    rw [buildLoop_cons_file _ _ _ _ _ _ hF, hread]
    simp only [if_true, hfail]
  rcases processUrl_spec (contentDirOf w0.cwd CDIR ++ F.name) F.name wk with
    ⟨U, c, wa, hp, cr, fr, _, _, _, _, twr, _⟩ | ⟨wx, hp, _⟩
  · rw [hread] at hp
    cases hp
    rcases createFile_spec ⟨U, F.name⟩ OUT (execute tmpl ⟨U, F.name⟩) wr with
      ⟨wb, hcf, _⟩ | ⟨wx, hcf, _, twf, trf, _, kf⟩
    · rw [hfail] at hcf; cases hcf
    · rw [hfail] at hcf
      cases hcf
      rw [cr, hcwd, fr] at kf
      have hkeep : ∀ p c, p ≠ pagePath w.cwd OUT F.name →
          wk.fs.lstat p = some (Node.file c) → wf.fs.lstat p = some (Node.file c) := kf
      refine ⟨hbuild, trf, by rw [twf, twr], hkeep, ?_⟩
      intro G _ hG hFv hne c hc
      refine hkeep _ c ?_ hc
      rw [pagePath_eq _ _ _ hG, pagePath_eq _ _ _ hFv]
      intro h
      rw [List.append_cancel_left_eq] at h
      simp only [List.cons.injEq] at h
      exact hne h.1
  · rw [hread] at hp; cases hp

/-- Witness for claim C5: the project with an empty `urls/`. -/
theorem build_empty_input_fatal_witness :
    (build demoEnv emptyWorld).isFatal = true
      ∧ (build demoEnv emptyWorld).world.fs = emptyWorld.fs
      ∧ writesOf (build demoEnv emptyWorld).world.trace = writesOf emptyWorld.trace
      ∧ createsOf (build demoEnv emptyWorld).world.trace = createsOf emptyWorld.trace
      ∧ (∀ tmpl, demoEnv.templateParse demoEnv.tmplsrc = some tmpl →
          (build demoEnv emptyWorld).world.stdout =
            (ioutilReadDir (contentDirOf ["home"] "urls")
              (buildDirs demoEnv emptyWorld).world).world.stdout
              ++ ["ERROR: URLs directory is empty"]) :=
  build_empty_input_fatal demoEnv emptyWorld (buildDirs demoEnv emptyWorld).world
    (ioutilReadDir (contentDirOf ["home"] "urls") (buildDirs demoEnv emptyWorld).world).world
    "public" "urls" [] true (by decide!) (by decide!) (Or.inr rfl)

/-- Claim C2, as stated, fails: with an input file named `index.html` the build returns
without a fatal error, and `<output>/index.html` is then the directory of that file's page,
not a file holding the front page; the failure to write the front page is only a warning. -/
theorem build_front_page_counterexample :
    (build demoEnv indexWorld).isFatal = false
      ∧ frontPath indexWorld.cwd "public" = ["home", "public", "index.html"]
      ∧ (build demoEnv indexWorld).world.fs.lstat ["home", "public", "index.html"]
          = some Node.dir
      ∧ (build demoEnv indexWorld).world.stdout.getLast?
          = some "WARN: Failed to create front page at -> public/index.html" := by
  decide!

/-- Witness for claim C2 as amended: the project of scenario S2. -/
theorem build_front_page_witness :
    (build demoEnv s2World).world.fs.lstat (frontPath s2World.cwd "public")
      = some (Node.file demoEnv.frontsrc) :=
  build_front_page demoEnv s2World (buildDirs demoEnv s2World).world
    (build demoEnv s2World).world "public" "urls" (by decide!) (by decide!) (by decide!)

/-! ## Two runs that differ by the configuration file: system calls -/

theorem cfgPath_ne_nil (cwd : Path) : cfgPath cwd ≠ [] := by simp [cfgPath]

theorem lstat_cons_ne (fs : FS) (cfg p : Path) (n : Node) (h : p ≠ cfg) :
    FS.lstat ((cfg, n) :: fs) p = fs.lstat p := by
  simp only [FS.lstat, FS.get]
  rw [if_neg (fun (e : cfg = p) => h e.symm)]

theorem isDir_cons_file (fs : FS) (cfg : Path) (doc : String) (hne : cfg ≠ [])
    (habs : fs.get cfg = none) (p : Path) :
    FS.isDir ((cfg, Node.file doc) :: fs) p = fs.isDir p := by
  by_cases h : p = cfg
  · subst h
    simp [FS.isDir, FS.lstat, FS.get, hne, habs]
  · simp only [FS.isDir, lstat_cons_ne fs cfg p _ h]

theorem walk_congr (fs1 fs2 : FS) (h : ∀ p, fs2.isDir p = fs1.isDir p) (cs : List String) :
    ∀ cur, walk fs2 cur cs = walk fs1 cur cs := by
  induction cs with
  | nil => intro cur; rfl
  | cons c rest ih =>
    intro cur
    simp only [walk, h, ih]

theorem namei_congr (fs1 fs2 : FS) (h : ∀ p, fs2.isDir p = fs1.isDir p) (cwd : Path)
    (name : String) : namei fs2 cwd name = namei fs1 cwd name := by
  simp only [namei, walk_congr fs1 fs2 h]

theorem set_cons_ne (fs : FS) (cfg p : Path) (n m : Node) (h : p ≠ cfg) :
    FS.set ((cfg, n) :: fs) p m = (cfg, n) :: fs.set p m := by
  simp only [FS.set]
  rw [if_neg (fun e => h e.symm)]

theorem children_cons_ne (fs : FS) (cfg d : Path) (n : Node) (h : cfg.dropLast ≠ d) :
    FS.children ((cfg, n) :: fs) d = fs.children d := by
  simp [FS.children, List.filterMap_cons, h]

theorem list_cons_file (fs : FS) (cfg d : Path) (doc : String) (hne : cfg ≠ [])
    (habs : fs.get cfg = none) (h : cfg.dropLast ≠ d) :
    FS.list ((cfg, Node.file doc) :: fs) d = fs.list d := by
  simp only [FS.list, children_cons_ne fs cfg d _ h, isDir_cons_file fs cfg doc hne habs]

theorem Avoids.head {cfg cur : Path} {cs : List String} (h : Avoids cfg cur cs) : cur ≠ cfg := by
  have := h 0
  simpa [lexWalk] using this

theorem Avoids.tail_skip {cfg cur : Path} {c : String} {cs : List String}
    (h : Avoids cfg cur (c :: cs)) (hc : c = "" ∨ c = ".") : Avoids cfg cur cs := by
  intro k
  have := h (k + 1)
  simpa [lexWalk, hc] using this

theorem Avoids.tail_up {cfg cur : Path} {cs : List String}
    (h : Avoids cfg cur (".." :: cs)) : Avoids cfg cur.dropLast cs := by
  intro k
  have := h (k + 1)
  simpa [lexWalk] using this

theorem Avoids.tail_down {cfg cur : Path} {c : String} {cs : List String}
    (h : Avoids cfg cur (c :: cs)) (h1 : c ≠ "") (h2 : c ≠ ".") (h3 : c ≠ "..") :
    Avoids cfg (cur ++ [c]) cs := by
  intro k
  have := h (k + 1)
  simpa [lexWalk, h1, h2, h3] using this

theorem mkdirAllFrom_cons_file (cfg : Path) (doc : String) (hne : cfg ≠ [])
    (cs : List String) :
    ∀ (fs : FS) (cur : Path), fs.get cfg = none → Avoids cfg cur cs →
      mkdirAllFrom ((cfg, Node.file doc) :: fs) cur cs =
          ((mkdirAllFrom fs cur cs).1, (cfg, Node.file doc) :: (mkdirAllFrom fs cur cs).2)
        ∧ (mkdirAllFrom fs cur cs).2.get cfg = none := by
  induction cs with
  | nil =>
    intro fs cur habs _
    simp only [mkdirAllFrom, isDir_cons_file fs cfg doc hne habs]
    exact ⟨trivial, habs⟩
  | cons c rest ih =>
    intro fs cur habs hav
    simp only [mkdirAllFrom, isDir_cons_file fs cfg doc hne habs]
    by_cases h1 : c = ""
    · simp only [h1, if_true]
      exact ih fs cur habs (hav.tail_skip (Or.inl h1))
    · simp only [h1, if_false]
      by_cases h2 : fs.isDir cur = true
      · simp only [h2, Bool.not_true, Bool.false_eq_true, if_false]
        by_cases h3 : c = "."
        · simp only [h3, if_true]
          exact ih fs cur habs (hav.tail_skip (Or.inr h3))
        · simp only [h3, if_false]
          by_cases h4 : c = ".."
          · simp only [h4, if_true]
            subst h4
            exact ih fs _ habs hav.tail_up
          · simp only [h4, if_false]
            have hav2 := hav.tail_down h1 h3 h4
            have hnc : cur ++ [c] ≠ cfg := hav2.head
            rw [lstat_cons_ne fs cfg _ _ hnc]
            cases hl : fs.lstat (cur ++ [c]) with
            | none =>
              simp only []
              rw [set_cons_ne fs cfg _ _ _ hnc]
              exact ih _ _ (by rw [FS.get_set_ne _ _ _ _ hnc.symm]; exact habs) hav2
            | some x =>
              simp only []
              exact ih fs _ habs hav2
      · simp only [h2, Bool.not_false, if_true]
        exact ⟨trivial, habs⟩

theorem Sim.isDir_eq {cwd : Path} {doc : String} {tr1 tr2 : List Event} {a b : World}
    (h : Sim cwd doc tr1 tr2 a b) (p : Path) : b.fs.isDir p = a.fs.isDir p := by
  rw [h.fs]
  exact isDir_cons_file a.fs _ doc (cfgPath_ne_nil cwd) h.absent p

theorem Sim.lstat_eq {cwd : Path} {doc : String} {tr1 tr2 : List Event} {a b : World}
    (h : Sim cwd doc tr1 tr2 a b) (p : Path) (hp : p ≠ cfgPath cwd) :
    b.fs.lstat p = a.fs.lstat p := by
  rw [h.fs]
  exact lstat_cons_ne a.fs _ p _ hp

theorem Sim.get_eq {cwd : Path} {doc : String} {tr1 tr2 : List Event} {a b : World}
    (h : Sim cwd doc tr1 tr2 a b) (p : Path) (hp : p ≠ cfgPath cwd) :
    b.fs.get p = a.fs.get p := by
  rw [h.fs]
  simp only [FS.get]
  rw [if_neg (fun (e : cfgPath cwd = p) => hp e.symm)]

theorem Sim.namei_eq {cwd : Path} {doc : String} {tr1 tr2 : List Event} {a b : World}
    (h : Sim cwd doc tr1 tr2 a b) (name : String) :
    namei b.fs b.cwd name = namei a.fs a.cwd name := by
  rw [h.cwdB, h.cwdA]
  exact namei_congr a.fs b.fs h.isDir_eq cwd name

theorem Sim.fault_eq {cwd : Path} {doc : String} {tr1 tr2 : List Event} {a b : World}
    (h : Sim cwd doc tr1 tr2 a b) : b.fault b.clock = a.fault a.clock := by
  simp [World.fault, h.faults, h.clock]

theorem Sim.update {cwd : Path} {doc : String} {tr1 tr2 : List Event} {a b : World}
    (h : Sim cwd doc tr1 tr2 a b) (fs1 : FS) (habs : fs1.get (cfgPath cwd) = none)
    (evs : List Event) :
    Sim cwd doc tr1 tr2 { a.tick with fs := fs1, trace := a.trace ++ evs }
      { b.tick with fs := (cfgPath cwd, Node.file doc) :: fs1, trace := b.trace ++ evs } := by
  obtain ⟨t, h1, h2⟩ := h.trace
  exact ⟨rfl, habs, h.cwdA, h.cwdB, h.faults, by simp [World.tick, h.clock],
    ⟨t ++ evs, by simp [h1], by simp [h2]⟩⟩

theorem Sim.tick {cwd : Path} {doc : String} {tr1 tr2 : List Event} {a b : World}
    (h : Sim cwd doc tr1 tr2 a b) : Sim cwd doc tr1 tr2 a.tick b.tick := by
  have := h.update a.fs h.absent []
  simpa [World.tick, h.fs] using this

theorem Sim.event {cwd : Path} {doc : String} {tr1 tr2 : List Event} {a b : World}
    (h : Sim cwd doc tr1 tr2 a b) (evs : List Event) :
    Sim cwd doc tr1 tr2 { a.tick with trace := a.trace ++ evs }
      { b.tick with trace := b.trace ++ evs } := by
  have := h.update a.fs h.absent evs
  simpa [World.tick, h.fs] using this

theorem Sim.print {cwd : Path} {doc : String} {tr1 tr2 : List Event} {a b : World}
    (h : Sim cwd doc tr1 tr2 a b) (x y : List String) :
    Sim cwd doc tr1 tr2 { a with stdout := x } { b with stdout := y } :=
  ⟨h.fs, h.absent, h.cwdA, h.cwdB, h.faults, h.clock, h.trace⟩

theorem simP_pure {α : Type} (cwd : Path) (doc : String) (tr1 tr2 : List Event)
    (Q : α → Prop) (x : α) (hx : Q x) : SimP cwd doc tr1 tr2 Q (pure x) :=
  fun _ _ h => ⟨rfl, hx, h⟩

theorem simP_warnln (cwd : Path) (doc : String) (tr1 tr2 : List Event) (msg : String) :
    SimP cwd doc tr1 tr2 (fun _ => True) (warnln msg) :=
  fun _ _ h => ⟨rfl, trivial, h.print _ _⟩

theorem simP_fatalln {α : Type} (cwd : Path) (doc : String) (tr1 tr2 : List Event)
    (Q : α → Prop) (msg : String) : SimP cwd doc tr1 tr2 Q (fatalln msg) :=
  fun _ _ h => h.print _ _

theorem simP_fileClose (cwd : Path) (doc : String) (tr1 tr2 : List Event) (f : Option Path) :
    SimP cwd doc tr1 tr2 (fun _ => True) (fileClose f) :=
  fun _ _ h => ⟨rfl, trivial, h⟩

theorem simP_bind {α β : Type} (cwd : Path) (doc : String) (tr1 tr2 : List Event)
    (Q : α → Prop) (R : β → Prop) (m : Prog α) (f : α → Prog β)
    (hm : SimP cwd doc tr1 tr2 Q m) (hf : ∀ x, Q x → SimP cwd doc tr1 tr2 R (f x)) :
    SimP cwd doc tr1 tr2 R (m >>= f) := by
  intro a b h
  have := hm a b h
  simp only [bind_apply]
  cases ha : m a with
  | ok x a1 =>
    cases hb : m b with
    | ok y b1 =>
      rw [ha, hb] at this
      obtain ⟨rfl, hq, hs⟩ := this
      exact hf x hq a1 b1 hs
    | fatal b1 => rw [ha, hb] at this; exact this.elim
  | fatal a1 =>
    cases hb : m b with
    | ok y b1 => rw [ha, hb] at this; exact this.elim
    | fatal b1 => rw [ha, hb] at this; exact this

theorem simP_weaken {α : Type} (cwd : Path) (doc : String) (tr1 tr2 : List Event)
    (Q R : α → Prop) (m : Prog α) (hm : SimP cwd doc tr1 tr2 Q m) (hqr : ∀ x, Q x → R x) :
    SimP cwd doc tr1 tr2 R m := by
  intro a b h
  have := hm a b h
  cases ha : m a with
  | ok x a1 =>
    cases hb : m b with
    | ok y b1 =>
      rw [ha, hb] at this
      exact ⟨this.1, hqr x this.2.1, this.2.2⟩
    | fatal b1 => rw [ha, hb] at this; exact this.elim
  | fatal a1 =>
    cases hb : m b with
    | ok y b1 => rw [ha, hb] at this; exact this.elim
    | fatal b1 => rw [ha, hb] at this; exact this

theorem simP_osCreate (cwd : Path) (doc : String) (tr1 tr2 : List Event) (name : String)
    (hres : resolve cwd name ≠ cfgPath cwd) :
    SimP cwd doc tr1 tr2 (fun r => r ≠ some (cfgPath cwd)) (osCreate name) := by
  intro a b h
  unfold osCreate
  rw [h.fault_eq, h.namei_eq]
  by_cases hfa : a.fault a.clock = true
  · simp only [hfa, if_true]
    exact ⟨rfl, by simp, h.tick⟩
  · simp only [hfa, Bool.false_eq_true, if_false]
    cases hna : namei a.fs a.cwd name with
    | none => exact ⟨rfl, by simp, h.tick⟩
    | some p =>
      have hp : p = resolve cwd name := by
        have := namei_eq_resolve _ _ _ _ hna
        rw [h.cwdA] at this; exact this
      have hpc : p ≠ cfgPath cwd := by rw [hp]; exact hres
      simp only []
      rw [h.lstat_eq p hpc]
      have hupd := h.update (a.fs.set p (Node.file ""))
        (by rw [FS.get_set_ne _ _ _ _ hpc.symm]; exact h.absent) [Event.create p]
      rw [← set_cons_ne a.fs _ p _ _ hpc, ← h.fs] at hupd
      cases hl : a.fs.lstat p with
      | none => exact ⟨rfl, by simpa using hpc, hupd⟩
      | some n =>
        cases n with
        | dir => exact ⟨rfl, by simp, h.tick⟩
        | file c => exact ⟨rfl, by simpa using hpc, hupd⟩

theorem simP_fileWriteString (cwd : Path) (doc : String) (tr1 tr2 : List Event)
    (f : Option Path) (data : String) (hf : f ≠ some (cfgPath cwd)) :
    SimP cwd doc tr1 tr2 (fun _ => True) (fileWriteString f data) := by
  intro a b h
  unfold fileWriteString
  cases f with
  | none => exact ⟨rfl, trivial, h⟩
  | some p =>
    have hpc : p ≠ cfgPath cwd := fun e => hf (by rw [e])
    simp only []
    rw [h.fault_eq, h.get_eq p hpc]
    by_cases hfa : a.fault a.clock = true
    · simp only [hfa, if_true]
      exact ⟨rfl, trivial, h.tick⟩
    · simp only [hfa, Bool.false_eq_true, if_false]
      cases hl : a.fs.get p with
      | none => exact ⟨rfl, trivial, h.tick⟩
      | some n =>
        cases n with
        | dir => exact ⟨rfl, trivial, h.tick⟩
        | file c =>
          have hupd := h.update (a.fs.set p (Node.file (c ++ data)))
            (by rw [FS.get_set_ne _ _ _ _ hpc.symm]; exact h.absent) [Event.write p data]
          rw [← set_cons_ne a.fs _ p _ _ hpc, ← h.fs] at hupd
          exact ⟨rfl, trivial, hupd⟩

theorem simP_osOpen (cwd : Path) (doc : String) (tr1 tr2 : List Event) (name : String)
    (hres : resolve cwd name ≠ cfgPath cwd) :
    SimP cwd doc tr1 tr2 (fun r => r ≠ some (cfgPath cwd)) (osOpen name) := by
  intro a b h
  unfold osOpen
  rw [h.fault_eq, h.namei_eq]
  by_cases hfa : a.fault a.clock = true
  · simp only [hfa, if_true]
    exact ⟨rfl, by simp, h.tick⟩
  · simp only [hfa, Bool.false_eq_true, if_false]
    cases hna : namei a.fs a.cwd name with
    | none => exact ⟨rfl, by simp, h.tick⟩
    | some p =>
      have hp : p = resolve cwd name := by
        have := namei_eq_resolve _ _ _ _ hna
        rw [h.cwdA] at this; exact this
      have hpc : p ≠ cfgPath cwd := by rw [hp]; exact hres
      simp only []
      rw [h.lstat_eq p hpc]
      cases hl : a.fs.lstat p with
      | none => exact ⟨rfl, by simp, h.tick⟩
      | some n => exact ⟨rfl, by simpa using hpc, h.event _⟩

theorem simP_scannerScan (cwd : Path) (doc : String) (tr1 tr2 : List Event) (f : Path)
    (hf : f ≠ cfgPath cwd) :
    SimP cwd doc tr1 tr2 (fun _ => True) (scannerScan f) := by
  intro a b h
  unfold scannerScan
  rw [h.fault_eq, h.lstat_eq f hf]
  by_cases hfa : a.fault a.clock = true
  · simp only [hfa, if_true]
    exact ⟨rfl, trivial, h.tick⟩
  · simp only [hfa, Bool.false_eq_true, if_false]
    cases hl : a.fs.lstat f with
    | none => exact ⟨rfl, trivial, h.tick⟩
    | some n =>
      cases n with
      | dir => exact ⟨rfl, trivial, h.tick⟩
      | file c =>
        simp only []
        cases scanLines c with
        | none => exact ⟨rfl, trivial, h.event _⟩
        | some t => exact ⟨rfl, trivial, h.event _⟩

theorem simP_ioutilReadDir (cwd : Path) (doc : String) (tr1 tr2 : List Event) (name : String)
    (hres : resolve cwd name ≠ cwd) :
    SimP cwd doc tr1 tr2 (fun _ => True) (ioutilReadDir name) := by
  intro a b h
  unfold ioutilReadDir
  rw [h.fault_eq, h.namei_eq]
  by_cases hfa : a.fault a.clock = true
  · simp only [hfa, if_true]
    exact ⟨rfl, trivial, h.tick⟩
  · simp only [hfa, Bool.false_eq_true, if_false]
    cases hna : namei a.fs a.cwd name with
    | none => exact ⟨rfl, trivial, h.tick⟩
    | some p =>
      have hp : p = resolve cwd name := by
        have := namei_eq_resolve _ _ _ _ hna
        rw [h.cwdA] at this; exact this
      simp only []
      rw [h.isDir_eq p]
      have hlist : b.fs.list p = a.fs.list p := by
        rw [h.fs]
        refine list_cons_file a.fs _ p doc (cfgPath_ne_nil cwd) h.absent ?_
        rw [hp]
        simp only [cfgPath, List.dropLast_concat]
        exact fun e => hres e.symm
      rw [hlist]
      by_cases hd : a.fs.isDir p = true
      · simp only [hd, if_true]
        exact ⟨rfl, trivial, h.event _⟩
      · simp only [hd, Bool.false_eq_true, if_false]
        exact ⟨rfl, trivial, h.tick⟩

theorem simP_osMkdirAll (cwd : Path) (doc : String) (tr1 tr2 : List Event) (path : String)
    (hroot : isRooted path = false) (hav : Avoids (cfgPath cwd) cwd (splitPath path)) :
    SimP cwd doc tr1 tr2 (fun _ => True) (osMkdirAll path) := by
  intro a b h
  unfold osMkdirAll
  rw [h.fault_eq, h.cwdA, h.cwdB, h.fs]
  by_cases hfa : a.fault a.clock = true ∨ path = ""
  · simp only [hfa, if_true]
    exact ⟨rfl, trivial, h.tick⟩
  · simp only [hfa, if_false, hroot, Bool.false_eq_true]
    obtain ⟨e1, e2⟩ := mkdirAllFrom_cons_file (cfgPath cwd) doc (cfgPath_ne_nil cwd)
      (splitPath path) a.fs cwd h.absent hav
    rw [e1]
    cases hm : mkdirAllFrom a.fs cwd (splitPath path) with
    | mk r fs1 =>
      rw [hm] at e2
      simp only [] at e2
      cases r with
      | none =>
        simp only []
        have := h.update fs1 e2 []
        exact ⟨rfl, trivial, by simpa [World.tick] using this⟩
      | some p =>
        simp only []
        exact ⟨rfl, trivial, h.update fs1 e2 [Event.mkdirAll p]⟩

/-! ## Paths made of valid names -/

theorem cleanFold_valid (r : Bool) (L : List String) (hL : ∀ x ∈ L, ValidName x) :
    ∀ st : List String, L.foldl (cleanStep r) st = L.reverse ++ st := by
  induction L with
  | nil => intro st; rfl
  | cons a rest ih =>
    intro st
    rw [List.foldl_cons, cleanStep_valid r st a (hL a (by simp)),
      ih (fun x hx => hL x (by simp [hx]))]
    simp

theorem splitPath_stringsJoin_valid (a : String) (rest : List String)
    (hL : ∀ x ∈ a :: rest, ValidName x) : splitPath (stringsJoin (a :: rest)) = a :: rest := by
  rw [splitPath_stringsJoin]
  exact bind_splitPath_noSlash _ (fun x hx => (hL x hx).noSlash)

theorem isRooted_stringsJoin_valid (a : String) (rest : List String) (ha : ValidName a) :
    isRooted (stringsJoin (a :: rest)) = false :=
  isRooted_stringsJoin a rest ha.noSlash ha.1

theorem joinElems_valid (L : List String) (hL : ∀ x ∈ L, ValidName x) : joinElems L = L := by
  unfold joinElems
  rw [bind_splitPath_noSlash _ (fun x hx => (hL x hx).noSlash), cleanFold_valid false L hL]
  simp

theorem joinElems_joined (a : String) (rest : List String)
    (hL : ∀ x ∈ a :: rest, ValidName x) : joinElems [stringsJoin (a :: rest)] = a :: rest := by
  unfold joinElems
  simp only [List.flatMap_cons, List.flatMap_nil, List.append_nil]
  rw [splitPath_stringsJoin_valid a rest hL, cleanFold_valid false _ hL]
  simp

theorem filepathJoin_valid (a : String) (rest : List String)
    (hL : ∀ x ∈ a :: rest, ValidName x) : filepathJoin (a :: rest) = stringsJoin (a :: rest) := by
  have ha := hL a (by simp)
  have hdw : List.dropWhile (fun e => decide (e = "")) (a :: rest) = a :: rest := by
    simp [List.dropWhile, ha.1]
  unfold filepathJoin
  rw [hdw]
  simp only [filepathClean, isRooted_stringsJoin_valid a rest ha, cleanElems,
    splitPath_stringsJoin_valid a rest hL, cleanFold_valid false _ hL]
  simp

theorem filepathJoin_dot_valid (a : String) (rest : List String)
    (hL : ∀ x ∈ a :: rest, ValidName x) :
    filepathJoin ("." :: a :: rest) = stringsJoin (a :: rest) := by
  rw [filepathJoin_dot, joinElems_valid _ hL]
  simp

theorem filepathJoin_dot_joined (a : String) (rest : List String)
    (hL : ∀ x ∈ a :: rest, ValidName x) :
    filepathJoin [".", stringsJoin (a :: rest)] = stringsJoin (a :: rest) := by
  rw [filepathJoin_dot, joinElems_joined a rest hL]
  simp

theorem lexWalk_valid (L : List String) (hL : ∀ x ∈ L, ValidName x) :
    ∀ cur : Path, lexWalk cur L = cur ++ L := by
  induction L with
  | nil => intro cur; simp [lexWalk]
  | cons a rest ih =>
    intro cur
    have ha := hL a (by simp)
    simp only [lexWalk]
    rw [if_neg (by rintro (e | e); exact ha.1 e; exact ha.2.1 e), if_neg ha.2.2.1,
      ih (fun x hx => hL x (by simp [hx]))]
    simp

theorem resolve_stringsJoin_valid (cwd : Path) (a : String) (rest : List String)
    (hL : ∀ x ∈ a :: rest, ValidName x) :
    resolve cwd (stringsJoin (a :: rest)) = cwd ++ a :: rest := by
  unfold resolve
  rw [isRooted_stringsJoin_valid a rest (hL a (by simp)), splitPath_stringsJoin_valid a rest hL]
  simp only [Bool.false_eq_true, if_false]
  exact lexWalk_valid _ hL cwd

theorem avoids_valid (cwd : Path) (a : String) (rest : List String)
    (hL : ∀ x ∈ a :: rest, ValidName x) (ha : a ≠ "config.json") :
    Avoids (cfgPath cwd) cwd (a :: rest) := by
  intro k
  rw [lexWalk_valid _ (fun x hx => hL x (List.mem_of_mem_take hx))]
  unfold cfgPath
  intro e
  rw [List.append_cancel_left_eq] at e
  cases k with
  | zero => simp at e
  | succ n =>
    simp only [List.take_succ_cons, List.cons.injEq] at e
    exact ha e.1

theorem lexWalk_append (L M : List String) :
    ∀ cur : Path, lexWalk cur (L ++ M) = lexWalk (lexWalk cur L) M := by
  induction L with
  | nil => intro cur; simp [lexWalk]
  | cons a rest ih =>
    intro cur
    simp only [List.cons_append, lexWalk]
    split
    · exact ih _
    · split
      · exact ih _
      · exact ih _

theorem lexWalk_root_cwd (cwd : Path) (hcwd : ∀ c ∈ cwd, ValidName c) :
    lexWalk [] (splitPath (stringsJoin cwd)) = cwd := by
  cases cwd with
  | nil => simp [stringsJoin, splitPath_empty, lexWalk]
  | cons a rest =>
    rw [splitPath_stringsJoin_valid a rest hcwd, lexWalk_valid _ hcwd]
    simp

theorem inputDir_urls (cwd : Path) (hcwd : ∀ c ∈ cwd, ValidName c) :
    inputDir cwd "urls" = cwd ++ ["urls"] := by
  unfold inputDir resolve
  have h2 := isRooted_contentDirOf cwd "urls" ""
  rw [String.append_empty] at h2
  rw [h2]
  simp only [if_true]
  have e : contentDirOf cwd "urls" = "" ++ "/" ++ stringsJoin cwd ++ "/" ++ "urls" ++ "/" ++ "" := by
    simp [contentDirOf]
  rw [e, splitPath_append, splitPath_append, splitPath_append, splitPath_empty]
  have hu : splitPath "urls" = ["urls"] := by decide
  have h0 : lexWalk [] [""] = [] := by simp [lexWalk]
  rw [hu, lexWalk_append, lexWalk_append, lexWalk_append, h0, lexWalk_root_cwd cwd hcwd]
  simp [lexWalk]

/-! ## Two runs that differ by the configuration file: the program -/

theorem valid_public : ValidName "public" := by decide

theorem valid_urls : ValidName "urls" := by decide

theorem simP_checkDir_public (cwd : Path) (doc : String) (tr1 tr2 : List Event) :
    SimP cwd doc tr1 tr2 (fun _ => True) (checkDir "public") := by
  unfold checkDir
  have e : filepathJoin [".", "public"] = stringsJoin ["public"] := by decide
  rw [e]
  refine simP_osMkdirAll cwd doc tr1 tr2 _ (by decide) ?_
  rw [splitPath_stringsJoin_valid "public" [] (by simp [valid_public])]
  exact avoids_valid cwd "public" [] (by simp [valid_public]) (by decide)

theorem simP_checkDir_code (cwd : Path) (doc : String) (tr1 tr2 : List Event) (F : String)
    (hF : ValidName F) :
    SimP cwd doc tr1 tr2 (fun _ => True) (checkDir (filepathJoin ["public", F])) := by
  have hL : ∀ x ∈ ["public", F], ValidName x := by
    intro x hx
    simp only [List.mem_cons, List.mem_singleton, List.not_mem_nil, or_false] at hx
    rcases hx with rfl | rfl
    · exact valid_public
    · exact hF
  unfold checkDir
  rw [filepathJoin_valid "public" [F] hL, filepathJoin_dot_joined "public" [F] hL]
  refine simP_osMkdirAll cwd doc tr1 tr2 _ (isRooted_stringsJoin_valid _ _ valid_public) ?_
  rw [splitPath_stringsJoin_valid "public" [F] hL]
  exact avoids_valid cwd "public" [F] hL (by decide)

theorem resolve_page_public (cwd : Path) (F : String) (hF : ValidName F) :
    resolve cwd (filepathJoin [".", "public", F, "index.html"])
      = cwd ++ ["public", F, "index.html"] := by
  have hL : ∀ x ∈ ["public", F, "index.html"], ValidName x := by
    intro x hx
    simp only [List.mem_cons, List.mem_singleton, List.not_mem_nil, or_false] at hx
    rcases hx with rfl | rfl | rfl
    · exact valid_public
    · exact hF
    · exact validName_index
  rw [filepathJoin_dot_valid "public" [F, "index.html"] hL,
    resolve_stringsJoin_valid cwd "public" [F, "index.html"] hL]

theorem simP_createFile (cwd : Path) (doc : String) (tr1 tr2 : List Event) (u : UrlData)
    (data : String) (hv : ValidName u.Code) :
    SimP cwd doc tr1 tr2 (fun _ => True) (createFile u "public" data) := by
  unfold createFile
  refine simP_bind cwd doc tr1 tr2 (fun _ => True) _ _ _ (simP_checkDir_public cwd doc tr1 tr2) ?_
  intro ok _
  cases ok with
  | false =>
    simp only [Bool.not_false, if_true]
    exact simP_fatalln cwd doc tr1 tr2 _ _
  | true =>
    simp only [Bool.not_true, Bool.false_eq_true, if_false]
    refine simP_bind cwd doc tr1 tr2 (fun _ => True) _ _ _ (simP_checkDir_code _ _ _ _ _ hv) ?_
    intro ok2 _
    cases ok2 with
    | false =>
      simp only [Bool.not_false, if_true]
      exact simP_fatalln cwd doc tr1 tr2 _ _
    | true =>
      simp only [Bool.not_true, Bool.false_eq_true, if_false]
      refine simP_bind cwd doc tr1 tr2 (fun r => r ≠ some (cfgPath cwd)) _ _ _
        (simP_osCreate cwd doc tr1 tr2 _ ?_) ?_
      · rw [resolve_page_public cwd _ hv]
        unfold cfgPath
        intro e
        rw [List.append_cancel_left_eq] at e
        simp at e
      · intro f hf
        cases f with
        | none =>
          simp only [Option.isNone_none, if_true]
          exact simP_fatalln cwd doc tr1 tr2 _ _
        | some p =>
          simp only [Option.isNone_some, Bool.false_eq_true, if_false]
          refine simP_bind cwd doc tr1 tr2 (fun _ => True) _ _ _
            (simP_fileWriteString cwd doc tr1 tr2 _ _ hf) ?_
          intro wrote _
          cases wrote with
          | false =>
      simp only [Bool.not_false, if_true]
      exact simP_fatalln cwd doc tr1 tr2 _ _
          | true =>
            simp only [Bool.not_true, Bool.false_eq_true, if_false]
            refine simP_bind cwd doc tr1 tr2 (fun _ => True) _ _ _ (simP_fileClose cwd doc tr1 tr2 _) ?_
            intro _ _
            exact simP_pure _ _ _ _ _ _ trivial

theorem simP_createFrontpage (cwd : Path) (doc : String) (tr1 tr2 : List Event) (env : Env) :
    SimP cwd doc tr1 tr2 (fun _ => True) (createFrontpage env "public") := by
  unfold createFrontpage
  refine simP_bind cwd doc tr1 tr2 (fun _ => True) _ _ _ (simP_checkDir_public cwd doc tr1 tr2) ?_
  intro ok _
  cases ok with
  | false =>
    simp only [Bool.not_false, if_true]
    refine simP_bind cwd doc tr1 tr2 (fun _ => True) _ _ _ (simP_warnln cwd doc tr1 tr2 _) ?_
    intro _ _
    exact simP_pure _ _ _ _ _ _ trivial
  | true =>
    simp only [Bool.not_true, Bool.false_eq_true, if_false]
    have e : filepathJoin [".", "public", "index.html"] = stringsJoin ["public", "index.html"] := by
      decide
    have hL : ∀ x ∈ ["public", "index.html"], ValidName x := by
      intro x hx
      simp only [List.mem_cons, List.mem_singleton, List.not_mem_nil, or_false] at hx
      rcases hx with rfl | rfl
      · exact valid_public
      · exact validName_index
    refine simP_bind cwd doc tr1 tr2 (fun r => r ≠ some (cfgPath cwd)) _ _ _
      (simP_osCreate cwd doc tr1 tr2 _ ?_) ?_
    · rw [e, resolve_stringsJoin_valid cwd "public" ["index.html"] hL]
      unfold cfgPath
      intro e2
      rw [List.append_cancel_left_eq] at e2
      simp at e2
    · intro f hf
      cases f with
      | none =>
        simp only [Option.isNone_none, if_true]
        refine simP_bind cwd doc tr1 tr2 (fun _ => True) _ _ _ (simP_warnln cwd doc tr1 tr2 _) ?_
        intro _ _
        exact simP_pure _ _ _ _ _ _ trivial
      | some p =>
        simp only [Option.isNone_some, Bool.false_eq_true, if_false]
        refine simP_bind cwd doc tr1 tr2 (fun _ => True) _ _ _
          (simP_fileWriteString cwd doc tr1 tr2 _ _ hf) ?_
        intro wrote _
        cases wrote with
        | false =>
          simp only [Bool.not_false, if_true]
          refine simP_bind cwd doc tr1 tr2 (fun _ => True) _ _ _ (simP_warnln cwd doc tr1 tr2 _) ?_
          intro _ _
          refine simP_bind cwd doc tr1 tr2 (fun _ => True) _ _ _ (simP_fileClose cwd doc tr1 tr2 _) ?_
          intro _ _
          exact simP_pure _ _ _ _ _ _ trivial
        | true =>
          simp only [Bool.not_true, Bool.false_eq_true, if_false]
          refine simP_bind cwd doc tr1 tr2 (fun _ => True) _ _ _ (simP_fileClose cwd doc tr1 tr2 _) ?_
          intro _ _
          exact simP_pure _ _ _ _ _ _ trivial

theorem resolve_input_urls (cwd : Path) (hcwd : ∀ c ∈ cwd, ValidName c) (F : String)
    (hF : ValidName F) :
    resolve cwd (contentDirOf cwd "urls" ++ F) = cwd ++ ["urls", F] := by
  rw [resolve_contentDir_entry cwd "urls" F hF]
  have := inputDir_urls cwd hcwd
  unfold inputDir at this
  rw [this]
  simp

theorem simP_processUrl (cwd : Path) (hcwd : ∀ c ∈ cwd, ValidName c) (doc : String)
    (tr1 tr2 : List Event) (F : String) (hF : ValidName F) :
    SimP cwd doc tr1 tr2 (fun r => r.1.Code = F)
      (processUrl (contentDirOf cwd "urls" ++ F) F) := by
  unfold processUrl
  refine simP_bind cwd doc tr1 tr2 (fun r => r ≠ some (cfgPath cwd)) _ _ _
    (simP_osOpen cwd doc tr1 tr2 _ ?_) ?_
  · rw [resolve_input_urls cwd hcwd F hF]
    unfold cfgPath
    intro e
    rw [List.append_cancel_left_eq] at e
    simp at e
  · intro f hf
    cases f with
    | none => exact simP_fatalln cwd doc tr1 tr2 _ _
    | some p =>
      simp only []
      refine simP_bind cwd doc tr1 tr2 (fun _ => True) _ _ _
        (simP_scannerScan cwd doc tr1 tr2 p (fun e => hf (by rw [e]))) ?_
      intro r _
      obtain ⟨text, errNil⟩ := r
      cases errNil with
      | false =>
      simp only [Bool.not_false, if_true]
      exact simP_fatalln cwd doc tr1 tr2 _ _
      | true =>
        simp only [Bool.not_true, Bool.false_eq_true, if_false]
        refine simP_bind cwd doc tr1 tr2 (fun _ => True) _ _ _ (simP_fileClose cwd doc tr1 tr2 _) ?_
        intro _ _
        exact simP_pure _ _ _ _ _ _ rfl

theorem SimR.cases {α : Type} {cwd : Path} {doc : String} {tr1 tr2 : List Event}
    {Q : α → Prop} {ra rb : Result α} (h : SimR cwd doc tr1 tr2 Q ra rb) :
    (∃ x a1 b1, ra = Result.ok x a1 ∧ rb = Result.ok x b1 ∧ Q x ∧ Sim cwd doc tr1 tr2 a1 b1)
      ∨ (∃ a1 b1, ra = Result.fatal a1 ∧ rb = Result.fatal b1 ∧ Sim cwd doc tr1 tr2 a1 b1) := by
  cases ra with
  | ok x a1 =>
    cases rb with
    | ok y b1 =>
      obtain ⟨rfl, hq, hs⟩ := h
      exact Or.inl ⟨x, a1, b1, rfl, rfl, hq, hs⟩
    | fatal b1 => exact h.elim
  | fatal a1 =>
    cases rb with
    | ok y b1 => exact h.elim
    | fatal b1 => exact Or.inr ⟨a1, b1, rfl, rfl, h⟩

theorem simP_buildLoop (cwd : Path) (hcwd : ∀ c ∈ cwd, ValidName c) (doc : String)
    (tr1 tr2 : List Event) (tmpl : Template) (files : List DirEntry)
    (hfiles : ∀ f ∈ files, ValidName f.name) :
    SimP cwd doc tr1 tr2 (fun _ => True)
      (buildLoop tmpl "public" (contentDirOf cwd "urls") files) := by
  induction files with
  | nil => exact simP_pure _ _ _ _ _ _ trivial
  | cons f rest ih =>
    have ih2 := ih (fun x hx => hfiles x (by simp [hx]))
    have hf := hfiles f (by simp)
    intro a b h
    cases hd : f.isDir with
    | true =>
      rw [buildLoop_cons_dir _ _ _ _ _ _ hd, buildLoop_cons_dir _ _ _ _ _ _ hd]
      exact ih2 a b h
    | false =>
      rw [buildLoop_cons_file _ _ _ _ _ _ hd, buildLoop_cons_file _ _ _ _ _ _ hd]
      rcases (simP_processUrl cwd hcwd doc tr1 tr2 f.name hf a b h).cases with
        ⟨x, a1, b1, ha, hb, hq, hs⟩ | ⟨a1, b1, ha, hb, hs⟩
      · rw [ha, hb]
        obtain ⟨data, isOk⟩ := x
        simp only [] at hq
        cases isOk with
        | false => exact ih2 a1 b1 hs
        | true =>
          simp only [if_true]
          rcases (simP_createFile cwd doc tr1 tr2 data (execute tmpl data)
              (by rw [hq]; exact hf) a1 b1 hs).cases with
            ⟨y, a2, b2, ha2, hb2, _, hs2⟩ | ⟨a2, b2, ha2, hb2, hs2⟩
          · rw [ha2, hb2]
            exact ih2 a2 b2 hs2
          · rw [ha2, hb2]
            exact hs2
      · rw [ha, hb]
        exact hs

theorem buildFrom_sim (env : Env) (cwd : Path) (hcwd : ∀ c ∈ cwd, ValidName c) (doc : String)
    (tr1 tr2 : List Event) (a b : World) (h : Sim cwd doc tr1 tr2 a b)
    (hwf : a.fs.wellFormed = true) :
    SimR cwd doc tr1 tr2 (fun _ => True) (buildFrom env "public" "urls" a)
      (buildFrom env "public" "urls" b) := by
  rw [buildFrom_eq, buildFrom_eq, h.cwdA, h.cwdB]
  have hdir : resolve cwd (contentDirOf cwd "urls") ≠ cwd := by
    have := inputDir_urls cwd hcwd
    unfold inputDir at this
    rw [this]
    intro e
    have := congrArg List.length e
    simp at this
  obtain ⟨fl, e, a1x, hspec, _, _, _, _, _, _, herr, hok⟩ :=
    ioutilReadDir_spec (contentDirOf cwd "urls") a
  rcases (simP_ioutilReadDir cwd doc tr1 tr2 (contentDirOf cwd "urls") hdir a b h).cases with
    ⟨x, a1, b1, ha, hb, _, hs⟩ | ⟨a1, b1, ha, hb, hs⟩
  · rw [ha, hb]
    obtain ⟨files, e2⟩ := x
    rw [hspec] at ha
    cases ha
    simp only []
    have hfiles : ∀ f ∈ fl, ValidName f.name := by
      cases e with
      | false => rw [herr rfl]; intro f hf; cases hf
      | true =>
        rw [(hok rfl).2]
        intro f hf
        exact wellFormed_list a.fs hwf _ f hf
    cases env.templateParse env.tmplsrc with
    | none => exact hs.print _ _
    | some tmpl =>
      simp only []
      split
      · exact hs.print _ _
      · rcases (simP_buildLoop cwd hcwd doc tr1 tr2 tmpl fl hfiles a1x b1 hs).cases with
          ⟨y, a2, b2, ha2, hb2, _, hs2⟩ | ⟨a2, b2, ha2, hb2, hs2⟩
        · rw [ha2, hb2]
          simp only []
          rcases (simP_createFrontpage cwd doc tr1 tr2 env a2 b2 hs2).cases with
            ⟨z, a3, b3, ha3, hb3, _, hs3⟩ | ⟨a3, b3, ha3, hb3, hs3⟩
          · rw [ha3, hb3]
            exact ⟨rfl, trivial, hs3⟩
          · rw [ha3, hb3]
            exact hs3
        · rw [ha2, hb2]
          exact hs2
  · rw [hspec] at ha
    cases ha

theorem namei_config (fs : FS) (cwd : Path) :
    namei fs cwd (filepathJoin [".", "config.json"]) =
      if fs.isDir cwd = true then some (cfgPath cwd) else none := by
  have e : filepathJoin [".", "config.json"] = "config.json" := by decide
  have e1 : ("config.json" : String) ≠ "" := by decide
  have e2 : isRooted "config.json" = false := by decide
  have e3 : splitPath "config.json" = ["config.json"] := by decide
  have e4 : ("config.json" : String) ≠ "." := by decide
  have e5 : ("config.json" : String) ≠ ".." := by decide
  rw [e]
  simp only [namei, e1, e2, e3, walk, if_false, Bool.false_eq_true, cfgPath]
  by_cases h : fs.isDir cwd = true
  · simp [h, e4, e5]
  · simp [h]

theorem buildDirs_pair (env : Env) (w : World)
    (hjson : env.jsonUnmarshal defaultDoc = (⟨"public", "urls"⟩, true))
    (habs : w.fs.get (cfgPath w.cwd) = none) :
    ∃ wA wB tr2, buildDirs env w = Result.ok ("public", "urls") wA
      ∧ buildDirs env (withConfig w defaultDoc) = Result.ok ("public", "urls") wB
      ∧ Sim w.cwd defaultDoc w.trace tr2 wA wB
      ∧ (tr2 = w.trace ∨ tr2 = w.trace ++ [Event.readFile (cfgPath w.cwd) defaultDoc])
      ∧ wA.fs = w.fs := by
  have hl : w.fs.lstat (cfgPath w.cwd) = none := by
    simp [FS.lstat, cfgPath_ne_nil, habs]
  have hd : FS.isDir ((cfgPath w.cwd, Node.file defaultDoc) :: w.fs) w.cwd = w.fs.isDir w.cwd :=
    isDir_cons_file w.fs _ _ (cfgPath_ne_nil _) habs _
  have hl2 : FS.lstat ((cfgPath w.cwd, Node.file defaultDoc) :: w.fs) (cfgPath w.cwd)
      = some (Node.file defaultDoc) := by
    simp [FS.lstat, FS.get, cfgPath_ne_nil]
  have hA : ∃ wA, buildDirs env w = Result.ok ("public", "urls") wA ∧ wA.fs = w.fs
      ∧ wA.cwd = w.cwd ∧ wA.faults = w.faults ∧ wA.clock = w.clock + 1
      ∧ wA.trace = w.trace := by
    simp only [buildDirs, readConfig, bind_apply, osReadFile, namei_config]
    by_cases hf : w.fault w.clock = true
    · simp only [hf, if_true, Bool.not_false]
      exact ⟨_, rfl, rfl, rfl, rfl, rfl, rfl⟩
    · simp only [hf, Bool.false_eq_true, if_false]
      by_cases hdir : w.fs.isDir w.cwd = true
      · simp only [hdir, if_true, hl, Bool.not_false]
        exact ⟨_, rfl, rfl, rfl, rfl, rfl, rfl⟩
      · simp only [hdir, Bool.false_eq_true, if_false, Bool.not_false, if_true]
        exact ⟨_, rfl, rfl, rfl, rfl, rfl, rfl⟩
  obtain ⟨wA, hwA, fA, cA, qA, kA, tA⟩ := hA
  have hB : ∃ wB tr2, buildDirs env (withConfig w defaultDoc) = Result.ok ("public", "urls") wB
      ∧ wB.fs = (cfgPath w.cwd, Node.file defaultDoc) :: w.fs
      ∧ wB.cwd = w.cwd ∧ wB.faults = w.faults ∧ wB.clock = w.clock + 1
      ∧ wB.trace = tr2
      ∧ (tr2 = w.trace ∨ tr2 = w.trace ++ [Event.readFile (cfgPath w.cwd) defaultDoc]) := by
    simp only [buildDirs, readConfig, bind_apply, osReadFile, namei_config, withConfig,
      World.fault, hd]
    by_cases hf : w.faults.contains w.clock = true
    · simp only [hf, if_true, Bool.not_false]
      exact ⟨_, _, rfl, rfl, rfl, rfl, rfl, rfl, Or.inl rfl⟩
    · simp only [hf, Bool.false_eq_true, if_false]
      by_cases hdir : w.fs.isDir w.cwd = true
      · simp only [hdir, if_true, hl2, hjson, Bool.not_true, Bool.false_eq_true, if_false]
        exact ⟨_, _, rfl, rfl, rfl, rfl, rfl, rfl, Or.inr rfl⟩
      · simp only [hdir, Bool.false_eq_true, if_false, Bool.not_false, if_true]
        exact ⟨_, _, rfl, rfl, rfl, rfl, rfl, rfl, Or.inl rfl⟩
  obtain ⟨wB, tr2, hwB, fB, cB, qB, kB, tB, htr⟩ := hB
  refine ⟨wA, wB, tr2, hwA, hwB, ?_, htr, fA⟩
  exact ⟨by rw [fB, fA], by rw [fA]; exact habs, cA, cB, by rw [qB, qA], by rw [kB, kA],
    ⟨[], by simp [tA], by simp [tB]⟩⟩

/-- Claim C4: a build with `./config.json` absent and a build on the same state with
`./config.json` holding the default document (which the JSON reader parses to `public` and
`urls`) have the same outcome (both fatal or both not), leave the same filesystem apart from
the configuration file itself, and make the same system calls on the same locations with the
same data, apart from the successful read of the configuration file: same input files read,
same files created, same data written. -/
theorem build_default_config_equiv (env : Env) (w : World)
    (hjson : env.jsonUnmarshal defaultDoc = (⟨"public", "urls"⟩, true))
    (hcwd : ∀ c ∈ w.cwd, ValidName c)
    (hwf : w.fs.wellFormed = true)
    (habsent : w.fs.lstat (cfgPath w.cwd) = none) :
    (build env (withConfig w defaultDoc)).isFatal = (build env w).isFatal
      ∧ (build env (withConfig w defaultDoc)).world.fs
          = (cfgPath w.cwd, Node.file defaultDoc) :: (build env w).world.fs
      ∧ (∃ t, (build env w).world.trace = w.trace ++ t
          ∧ ((build env (withConfig w defaultDoc)).world.trace = w.trace ++ t
            ∨ (build env (withConfig w defaultDoc)).world.trace
                = w.trace ++ Event.readFile (cfgPath w.cwd) defaultDoc :: t))
      ∧ readsOf (build env (withConfig w defaultDoc)).world.trace
          = readsOf (build env w).world.trace
      ∧ writesOf (build env (withConfig w defaultDoc)).world.trace
          = writesOf (build env w).world.trace
      ∧ createsOf (build env (withConfig w defaultDoc)).world.trace
          = createsOf (build env w).world.trace := by
  have habs : w.fs.get (cfgPath w.cwd) = none := by
    simpa [FS.lstat, cfgPath_ne_nil] using habsent
  obtain ⟨wA, wB, tr2, hA, hB, hsim, htr, fA⟩ := buildDirs_pair env w hjson habs
  rw [build_eq env w wA _ _ hA, build_eq env _ wB _ _ hB]
  have hR := buildFrom_sim env w.cwd hcwd defaultDoc w.trace tr2 wA wB hsim (by rw [fA]; exact hwf)
  have key : ∀ a b : World, Sim w.cwd defaultDoc w.trace tr2 a b →
      b.fs = (cfgPath w.cwd, Node.file defaultDoc) :: a.fs
      ∧ (∃ t, a.trace = w.trace ++ t
          ∧ (b.trace = w.trace ++ t
            ∨ b.trace = w.trace ++ Event.readFile (cfgPath w.cwd) defaultDoc :: t))
      ∧ readsOf b.trace = readsOf a.trace ∧ writesOf b.trace = writesOf a.trace
      ∧ createsOf b.trace = createsOf a.trace := by
    intro a b hs
    obtain ⟨t, h1, h2⟩ := hs.trace
    refine ⟨hs.fs, ⟨t, h1, ?_⟩, ?_, ?_, ?_⟩
    · rcases htr with rfl | rfl
      · exact Or.inl h2
      · exact Or.inr (by simp [h2])
    · rcases htr with rfl | rfl <;> simp [h1, h2, readsOf_append, readsOf]
    · rcases htr with rfl | rfl <;> simp [h1, h2, writesOf_append, writesOf]
    · rcases htr with rfl | rfl <;> simp [h1, h2, createsOf_append, createsOf]
  rcases hR.cases with ⟨x, a1, b1, ha, hb, _, hs⟩ | ⟨a1, b1, ha, hb, hs⟩
  · rw [ha, hb]
    exact ⟨rfl, key a1 b1 hs⟩
  · rw [ha, hb]
    exact ⟨rfl, key a1 b1 hs⟩

/-- Witness for claim C4: the project of scenario S2, which has no
`config.json`. -/
theorem build_default_config_equiv_witness :
    (build demoEnv (withConfig s2World defaultDoc)).isFatal = (build demoEnv s2World).isFatal
      ∧ (build demoEnv (withConfig s2World defaultDoc)).world.fs
          = (cfgPath s2World.cwd, Node.file defaultDoc) :: (build demoEnv s2World).world.fs
      ∧ (∃ t, (build demoEnv s2World).world.trace = s2World.trace ++ t
          ∧ ((build demoEnv (withConfig s2World defaultDoc)).world.trace = s2World.trace ++ t
            ∨ (build demoEnv (withConfig s2World defaultDoc)).world.trace
                = s2World.trace ++ Event.readFile (cfgPath s2World.cwd) defaultDoc :: t))
      ∧ readsOf (build demoEnv (withConfig s2World defaultDoc)).world.trace
          = readsOf (build demoEnv s2World).world.trace
      ∧ writesOf (build demoEnv (withConfig s2World defaultDoc)).world.trace
          = writesOf (build demoEnv s2World).world.trace
      ∧ createsOf (build demoEnv (withConfig s2World defaultDoc)).world.trace
          = createsOf (build demoEnv s2World).world.trace :=
  build_default_config_equiv demoEnv s2World (by decide!) (by decide!) (by decide!) (by decide!)

/-- Witness for claim C1: the project of scenario S2. -/
theorem build_pages_witness :
    ∃ (OUT CDIR : String) (tmpl : Template) (w0 : World) (cs : List String)
        (front : List (Path × String)),
      buildDirs demoEnv s2World = Result.ok (OUT, CDIR) w0
      ∧ demoEnv.templateParse demoEnv.tmplsrc = some tmpl
      ∧ s2World.fs.isDir (inputDir s2World.cwd CDIR) = true
      ∧ cs.length = (regularNames (s2World.fs.list (inputDir s2World.cwd CDIR))).length
      ∧ (∀ c ∈ cs, (scanLines c).isSome = true)
      ∧ readsOf (build demoEnv s2World).world.trace = readsOf s2World.trace ++
          List.zipWith (fun F c => (inputDir s2World.cwd CDIR ++ [F], c))
            (regularNames (s2World.fs.list (inputDir s2World.cwd CDIR))) cs
      ∧ writesOf (build demoEnv s2World).world.trace = writesOf s2World.trace ++
          pagesFor tmpl s2World.cwd OUT
            (regularNames (s2World.fs.list (inputDir s2World.cwd CDIR))) cs ++ front
      ∧ (front = [] ∨ front = [(frontPath s2World.cwd OUT, demoEnv.frontsrc)])
      ∧ ((∀ F ∈ regularNames (s2World.fs.list (inputDir s2World.cwd CDIR)),
            ∀ G ∈ regularNames (s2World.fs.list (inputDir s2World.cwd CDIR)),
              pagePath s2World.cwd OUT G ≠ inputDir s2World.cwd CDIR ++ [F]) →
          cs = (regularNames (s2World.fs.list (inputDir s2World.cwd CDIR))).map
            (fun F => s2World.fs.contentAt (inputDir s2World.cwd CDIR ++ [F])))
      ∧ ((regularNames (s2World.fs.list (inputDir s2World.cwd CDIR))).Nodup →
          ∀ F c, (F, c) ∈ List.zip (regularNames (s2World.fs.list (inputDir s2World.cwd CDIR))) cs →
            (build demoEnv s2World).world.fs.lstat (pagePath s2World.cwd OUT F)
              = some (Node.file (execute tmpl ⟨firstLine c, F⟩)))
      ∧ (∀ D ∈ s2World.fs.list (inputDir s2World.cwd CDIR), D.isDir = true →
          ∀ wr ∈ pagesFor tmpl s2World.cwd OUT
              (regularNames (s2World.fs.list (inputDir s2World.cwd CDIR))) cs ++ front,
            ¬ Under (outEntryPath s2World.cwd OUT D.name) wr.1) :=
  build_pages demoEnv s2World (build demoEnv s2World).world (by decide!) (by decide!)

/-- Witness for claim C10: in `blockedWorld` the page of `b`, the second
of three input files, cannot be written because `public/b` is a regular file. -/
theorem build_aborts_on_page_failure_witness :
    build demoEnv blockedWorld = Result.fatal blocked4
      ∧ readsOf blocked4.trace = readsOf blocked3.trace
      ∧ writesOf blocked4.trace = writesOf blocked2.trace
      ∧ (∀ p c, p ≠ pagePath blockedWorld.cwd "public" "b" →
          blocked2.fs.lstat p = some (Node.file c) → blocked4.fs.lstat p = some (Node.file c))
      ∧ (∀ G ∈ regularNames [(⟨"a", false⟩ : DirEntry)], ValidName G → ValidName "b" →
          G ≠ "b" →
          ∀ c, blocked2.fs.lstat (pagePath blockedWorld.cwd "public" G) = some (Node.file c) →
            blocked4.fs.lstat (pagePath blockedWorld.cwd "public" G) = some (Node.file c)) :=
  build_aborts_on_page_failure demoEnv blockedWorld blocked0 blocked1 blocked2 blocked3 blocked4
    "public" "urls" demoTmpl [⟨"a", false⟩] [⟨"c", false⟩] ⟨"b", false⟩ true
    ⟨"https://b.test", "b"⟩ (by decide!) (by decide!) (by decide!) (by decide!) (by decide!)
    (by decide!) (by decide!)

/-- Claim C8: the code at the failing input. For the site name `/srv/site`, given from the
working directory `/home` with `/srv/site` present, every filesystem operation of
`initNewSite` succeeds (nothing is printed), the configuration is written to
`/srv/site/config.json`, but the directory created is `/home/srv/site/urls`: neither
`/srv/site/urls` nor `/home/srv/site/config.json` exists afterwards. -/
theorem initNewSite_absolute_name :
    (initNewSite demoEnv "/srv/site" absWorld).isFatal = false
      ∧ (initNewSite demoEnv "/srv/site" absWorld).world.stdout = []
      ∧ createsOf (initNewSite demoEnv "/srv/site" absWorld).world.trace
          = [["srv", "site", "config.json"]]
      ∧ (initNewSite demoEnv "/srv/site" absWorld).world.fs.lstat ["srv", "site", "config.json"]
          = some (Node.file demoEnv.defaultConf)
      ∧ (initNewSite demoEnv "/srv/site" absWorld).world.fs.lstat ["home", "srv", "site", "urls"]
          = some Node.dir
      ∧ (initNewSite demoEnv "/srv/site" absWorld).world.fs.lstat ["srv", "site", "urls"] = none
      ∧ (initNewSite demoEnv "/srv/site" absWorld).world.fs.lstat
          ["home", "srv", "site", "config.json"] = none := by
  decide!

end Staticurl
